import Mathlib

/-!
A shallow embedding of the crossword room engine from `src/web` of
`bbeck/puzzles-with-chat` (the `rooms.py`, `puzzles.py`, `settings.py` and
`server.py` modules), together with theorems checking the natural-language
specification against it.

Python strings are modelled as lists of characters (`Str`), Python `None`
as `Option.none`, Python dicts as insertion-ordered association lists, and
Python functions that can raise as `Option`-valued or outcome-valued Lean
functions.  Machine details (redis transport, socket transport, Flask
plumbing) are out of scope; the functions below follow the control flow of
the source line by line.
-/

/-- Python `str` is modelled as a list of characters. -/
abbrev Str := List Char

/-- `l[n] = v` on a Python list: replace the `n`-th element, identity when
out of range (callers in the source only index in range). -/
def setNth {α : Type} : List α → Nat → α → List α
  | [], _, _ => []
  | _ :: rest, 0, v => v :: rest
  | a :: rest, n + 1, v => a :: setNth rest n v

/-- Lookup in a Python dict modelled as an insertion-ordered assoc list. -/
def dictGet {β : Type} (m : List (Nat × β)) (k : Nat) : Option β :=
  match m with
  | [] => none
  | (k', v) :: rest => if k' = k then some v else dictGet rest k

/-- `m[k] = v` on a Python dict: replace in place when the key is present,
append otherwise. -/
def dictSet {β : Type} (m : List (Nat × β)) (k : Nat) (v : β) : List (Nat × β) :=
  match m with
  | [] => [(k, v)]
  | (k', v') :: rest =>
      if k' = k then (k', v) :: rest else (k', v') :: dictSet rest k v

/-- Evaluate an option-valued function over a list, failing when any
element fails (the shape of a Python loop that can raise). -/
def listMapM {α β : Type} (f : α → Option β) : List α → Option (List β)
  | [] => some []
  | a :: rest =>
      match f a, listMapM f rest with
      | some b, some bs => some (b :: bs)
      | _, _ => none

/-- Python `str.strip()` (ASCII whitespace suffices for this code base). -/
def strip (s : Str) : Str :=
  ((s.dropWhile Char.isWhitespace).reverse.dropWhile Char.isWhitespace).reverse

/-- Python `str.upper()` for the ASCII strings this code handles. -/
def upperStr (s : Str) : Str := s.map Char.toUpper

/-- Python `str.replace(" ", "")`. -/
def removeSpaces (s : Str) : Str := s.filter (· ≠ ' ')

/-- Parse an unsigned decimal digit string; `none` when empty or non-digit. -/
def parseDigits (ds : Str) : Option Nat :=
  if ds = [] then none
  else if ds.all Char.isDigit then
    some (ds.foldl (fun n c => n * 10 + (c.toNat - 48)) 0)
  else none

/-- Python `int(s)`: optional surrounding whitespace, optional sign, decimal
digits.  (Digit-separator underscores are not used by this code base and are
not modelled.) -/
def pythonInt (s : Str) : Option Int :=
  match strip s with
  | '+' :: ds => (parseDigits ds).map Int.ofNat
  | '-' :: ds => (parseDigits ds).map (fun n => -(n : Int))
  | ds => (parseDigits ds).map Int.ofNat

/-! ## The answer parser (`rooms.parse_answer`) -/

/-- `cells[-1] += c`: append a character to the last token of the list. -/
def appendLast (cells : List Str) (c : Char) : List Str :=
  match cells with
  | [] => []
  | [s] => [s ++ [c]]
  | s :: rest => s :: appendLast rest c

/-- One iteration of the character loop of `rooms.parse_answer`, acting on
the loop state `(cells, inParens)`. -/
def parse_answer_step (st : List Str × Bool) (c : Char) : List Str × Bool :=
  let cells := st.1
  let inParens := st.2
  if inParens ∧ c = ')' then (cells, false)
  else if inParens then (appendLast cells c, true)
  else if c = '(' then (cells ++ [[]], true)
  else (cells ++ [if c = '.' then [] else [c]], false)

/-- `rooms.parse_answer`: split an answer string into per-cell tokens,
grouping parenthesized rebus runs and turning `.` into the empty token. -/
def parse_answer (answer : Str) : List Str :=
  (answer.foldl parse_answer_step ([], false)).1

/-- Helper for the claim-side parser: consume characters up to and including
the first `)`, returning the consumed token and the remainder. -/
def grabGroup : Str → Str × Str
  | [] => ([], [])
  | c :: rest =>
      if c = ')' then ([], rest)
      else
        let g := grabGroup rest
        (c :: g.1, g.2)

theorem grabGroup_length_le (s : Str) : (grabGroup s).2.length ≤ s.length := by
  induction s with
  | nil => simp [grabGroup]
  | cons c rest ih =>
      by_cases h : c = ')'
      · simp [grabGroup, h]
      · simp only [grabGroup, if_neg h]
        exact Nat.le_succ_of_le ih

/-- The answer parser as the specification §4.2 words it: a `(` opens a rebus
group that accumulates characters verbatim until the matching `)` (dropped),
`.` outside a group is an empty token, and any other character outside a
group is a single-character token. -/
def parseAnswerSpec (s : Str) : List Str :=
  match s with
  | [] => []
  | c :: rest =>
      if c = '(' then (grabGroup rest).1 :: parseAnswerSpec (grabGroup rest).2
      else if c = '.' then [] :: parseAnswerSpec rest
      else [c] :: parseAnswerSpec rest
termination_by s.length
decreasing_by
  · simpa using Nat.lt_succ_of_le (grabGroup_length_le rest)
  · simp
  · simp

/-- Append a whole string to the last token of a token list. -/
def appendLastStr (cells : List Str) (t : Str) : List Str :=
  match cells with
  | [] => []
  | [s] => [s ++ t]
  | s :: rest => s :: appendLastStr rest t

theorem appendLastStr_nil_str (cells : List Str) : appendLastStr cells [] = cells := by
  induction cells with
  | nil => rfl
  | cons s rest ih =>
      cases rest with
      | nil => simp [appendLastStr]
      | cons b bs => simpa [appendLastStr] using ih

theorem appendLastStr_cons (cells : List Str) (c : Char) (t : Str) :
    appendLastStr cells (c :: t) = appendLastStr (appendLast cells c) t := by
  induction cells with
  | nil => rfl
  | cons s rest ih =>
      cases rest with
      | nil => simp [appendLastStr, appendLast]
      | cons b bs =>
          obtain ⟨u, us, hu⟩ : ∃ u us, appendLast (b :: bs) c = u :: us := by
            cases bs <;> simp [appendLast]
          have h1 : appendLast (s :: b :: bs) c = s :: appendLast (b :: bs) c := by
            simp [appendLast]
          rw [h1, hu]
          simp only [appendLastStr]
          rw [← hu, ih]

theorem appendLastStr_append_singleton (xs : List Str) (s t : Str) :
    appendLastStr (xs ++ [s]) t = xs ++ [s ++ t] := by
  induction xs with
  | nil => rfl
  | cons a as ih =>
      cases as with
      | nil => simp [appendLastStr]
      | cons b bs => simpa [appendLastStr] using ih

theorem parse_loop_charac : ∀ (n : Nat) (cs : Str), cs.length ≤ n →
    (∀ cells : List Str,
      (List.foldl parse_answer_step (cells, false) cs).1 = cells ++ parseAnswerSpec cs)
    ∧ (∀ cells : List Str,
      (List.foldl parse_answer_step (cells, true) cs).1 =
        appendLastStr cells (grabGroup cs).1 ++ parseAnswerSpec (grabGroup cs).2) := by
  intro n
  induction n with
  | zero =>
      intro cs hle
      have hnil : cs = [] := List.length_eq_zero.mp (Nat.le_zero.mp hle)
      subst hnil
      constructor
      · intro cells; simp [parseAnswerSpec]
      · intro cells; simp [grabGroup, parseAnswerSpec, appendLastStr_nil_str]
  | succ n ih =>
      intro cs hle
      cases cs with
      | nil =>
          constructor
          · intro cells; simp [parseAnswerSpec]
          · intro cells; simp [grabGroup, parseAnswerSpec, appendLastStr_nil_str]
      | cons c rest =>
          have hrest : rest.length ≤ n := Nat.le_of_succ_le_succ hle
          constructor
          · intro cells
            by_cases hparen : c = '('
            · subst hparen
              have hstep : parse_answer_step (cells, false) '(' = (cells ++ [[]], true) := by
                simp [parse_answer_step]
              rw [List.foldl_cons, hstep, (ih rest hrest).2 (cells ++ [[]]),
                appendLastStr_append_singleton]
              simp [parseAnswerSpec]
            · by_cases hdot : c = '.'
              · subst hdot
                have hstep : parse_answer_step (cells, false) '.' = (cells ++ [[]], false) := by
                  simp [parse_answer_step]
                rw [List.foldl_cons, hstep, (ih rest hrest).1 (cells ++ [[]])]
                simp [parseAnswerSpec]
              · have hstep : parse_answer_step (cells, false) c = (cells ++ [[c]], false) := by
                  simp [parse_answer_step, hparen, hdot]
                rw [List.foldl_cons, hstep, (ih rest hrest).1 (cells ++ [[c]])]
                simp [parseAnswerSpec, hparen, hdot]
          · intro cells
            by_cases hclose : c = ')'
            · subst hclose
              have hstep : parse_answer_step (cells, true) ')' = (cells, false) := by
                simp [parse_answer_step]
              rw [List.foldl_cons, hstep, (ih rest hrest).1 cells]
              simp [grabGroup, appendLastStr_nil_str]
            · have hstep : parse_answer_step (cells, true) c = (appendLast cells c, true) := by
                simp [parse_answer_step, hclose]
              rw [List.foldl_cons, hstep, (ih rest hrest).2 (appendLast cells c)]
              simp [grabGroup, hclose, appendLastStr_cons]

theorem parse_answer_eq_spec (s : Str) : parse_answer s = parseAnswerSpec s := by
  simpa [parse_answer] using (parse_loop_charac s.length s le_rfl).1 []

/-! ## Data model (`puzzles.Puzzle`, `rooms.Room`, `settings.Settings`) -/

/-- A Python `datetime.date` value. -/
structure Date where
  year : Nat
  month : Nat
  day : Nat
deriving Repr, DecidableEq

/-- `puzzles.Puzzle`: an immutable crossword description.  A grid entry of
`none` models Python `None` (a blocked cell); clue dicts are modelled as
insertion-ordered assoc lists keyed by clue number. -/
structure Puzzle where
  rows : Nat
  cols : Nat
  title : Str
  publisher : Str
  published : Date
  author : Str
  cells : List (List (Option Str))
  cell_clue_numbers : List (List Nat)
  cell_circles : List (List Bool)
  across_clues : List (Nat × Str)
  down_clues : List (Nat × Str)
deriving Repr, DecidableEq

/-- `rooms.Room`: the mutable solve session.  `cells` mirrors the puzzle's
blocked positions with `none`; a fillable unfilled cell holds `some []`. -/
structure Room where
  play_pause_state : Str
  puzzle : Puzzle
  cells : List (List (Option Str))
  across_clues_filled : List (Nat × Bool)
  down_clues_filled : List (Nat × Bool)
deriving Repr, DecidableEq

/-- `settings.Settings` with its source defaults. -/
structure Settings where
  only_allow_correct_answers : Bool := false
  hide_clues : Str := "none".toList
deriving Repr, DecidableEq

/-- Read `grid[y][x]` from a cell grid (the source only indexes in range;
out-of-range reads return the blocked marker). -/
def cellAt (grid : List (List (Option Str))) (x y : Nat) : Option Str :=
  (((grid[y]?).getD [])[x]?).getD none

/-- Read `puzzle.cell_clue_numbers[y][x]`. -/
def cellNumAt (p : Puzzle) (x y : Nat) : Nat :=
  (((p.cell_clue_numbers[y]?).getD [])[x]?).getD 0

/-- Read `puzzle.cells[y][x]`. -/
def solAt (p : Puzzle) (x y : Nat) : Option Str := cellAt p.cells x y

/-! ## Grid addressing resolver (`puzzles.get_answer_cells`) -/

/-- The double scan of `get_answer_cells` that finds the cell whose clue
number equals `num`; mirroring the source, a later match overwrites an
earlier one. -/
def find_start (p : Puzzle) (num : Int) : Option (Nat × Nat) :=
  (List.range p.rows).foldl
    (fun current y =>
      (List.range p.cols).foldl
        (fun current x => if (cellNumAt p x y : Int) = num then some (x, y) else current)
        current)
    none

/-- The traversal loop of `get_answer_cells` with an explicit structural
fuel argument; the `walk` wrapper below always supplies sufficient fuel
(the loop advances `x + y` by one every iteration and stops at the grid
edge), so the `0` case is never reached from `walk`. -/
def walkAux (p : Puzzle) (across : Bool) : Nat → Nat → Nat → List (Nat × Nat)
  | 0, _, _ => []
  | fuel + 1, x, y =>
      if x ≥ p.cols ∨ y ≥ p.rows then []
      else if solAt p x y = none then []
      else (x, y) :: walkAux p across fuel (if across then x + 1 else x)
        (if across then y else y + 1)

/-- The traversal loop of `get_answer_cells`: walk from `(x, y)` one cell at
a time (right when `across`, down otherwise) collecting coordinates until
the position leaves the grid or hits a blocked cell. -/
def walk (p : Puzzle) (across : Bool) (x y : Nat) : List (Nat × Nat) :=
  walkAux p across ((p.cols - x) + (p.rows - y) + 1) x y

theorem walkAux_fuel (p : Puzzle) (b : Bool) : ∀ (f1 f2 x y : Nat),
    (p.cols - x) + (p.rows - y) < f1 → (p.cols - x) + (p.rows - y) < f2 →
    walkAux p b f1 x y = walkAux p b f2 x y := by
  intro f1
  induction f1 with
  | zero => intro f2 x y h1 _; omega
  | succ f1 ih =>
      intro f2 x y h1 h2
      cases f2 with
      | zero => omega
      | succ f2 =>
          simp only [walkAux]
          rcases Decidable.em (x ≥ p.cols ∨ y ≥ p.rows) with h | h
          · simp [h]
          · rcases Decidable.em (solAt p x y = none) with hs | hs
            · simp [h, hs]
            · rw [not_or] at h
              simp only [if_neg (not_or.mpr h), if_neg hs]
              congr 1
              apply ih
              · cases b <;> simp <;> omega
              · cases b <;> simp <;> omega

/-- `puzzles.get_answer_cells`: resolve a clue number and direction to the
ordered list of coordinates its answer occupies, or `none` when no cell
carries that clue number. -/
def get_answer_cells (p : Puzzle) (num : Int) (direction : Str) : Option (List (Nat × Nat)) :=
  match find_start p num with
  | none => none
  | some (x, y) => some (walk p (direction = "a".toList) x y)

/-! ## Clue id parsing (`rooms.parse_clue`) -/

/-- `rooms.parse_clue`: split `"17a"` into `(17, "a")`; `none` models the
`(None, None)` failure tuple. -/
def parse_clue (clue : Str) : Option (Int × Str) :=
  let clue := strip clue
  if clue.length = 0 then none
  else
    match pythonInt clue.dropLast with
    | none => none
    | some number =>
        let direction := (clue.getLastD ' ').toLower
        if direction ≠ 'a' ∧ direction ≠ 'd' then none
        else some (number, [direction])

/-! ## Answer application (`rooms.apply_answer`) -/

/-- `room.cells[y][x] = value`. -/
def setCell (grid : List (List (Option Str))) (x y : Nat) (v : Str) :
    List (List (Option Str)) :=
  match grid, y with
  | [], _ => []
  | row :: rest, 0 => setNth row x (some v) :: rest
  | row :: rest, n + 1 => row :: setCell rest x n v

/-- The write loop of `apply_answer`:
`for (value, (x, y)) in zip(answer, coordinates): room.cells[y][x] = value`. -/
def writeValues (grid : List (List (Option Str))) (pairs : List (Str × (Nat × Nat))) :
    List (List (Option Str)) :=
  pairs.foldl (fun g vxy => setCell g vxy.2.1 vxy.2.2 vxy.1) grid

/-- One filled-map entry: `all(room.cells[y][x] != "" for (x, y) in
get_answer_cells(...))`; `none` models the `TypeError` Python raises when the
clue number does not resolve. -/
def filledEntry (p : Puzzle) (grid : List (List (Option Str))) (num : Nat)
    (direction : Str) : Option Bool :=
  (get_answer_cells p (num : Int) direction).map
    (fun coords => coords.all (fun xy => decide (cellAt grid xy.1 xy.2 ≠ some [])))

/-- The filled-map recomputation loop of `apply_answer`: for every clue
number of the puzzle's clue dict, store whether all of its cells are
non-empty. -/
def updateFilled (p : Puzzle) (grid : List (List (Option Str)))
    (clues : List (Nat × Str)) (direction : Str) (m : List (Nat × Bool)) :
    Option (List (Nat × Bool)) :=
  match clues with
  | [] => some m
  | kv :: rest =>
      match filledEntry p grid kv.1 direction with
      | none => none
      | some b => updateFilled p grid rest direction (dictSet m kv.1 b)

/-- What a call to `rooms.apply_answer` does: the value it returns (or the
exception it raises), the cell writes it performs on the room, and the room
it persists through `set_room`, if any. -/
structure ApplyOutcome where
  result : Option Room
  crashed : Bool
  writes : List (Str × (Nat × Nat))
  persisted : Option Room
deriving Repr, DecidableEq

/-- `rooms.apply_answer`: parse the clue id, resolve its cells, parse the
answer, reject on length mismatch, write the tokens into the grid, recompute
both filled-maps, switch to `complete` when the grid equals the solution,
and persist.  A `crashed` outcome models an uncaught Python exception
(`len(None)` / iterating `None` when the clue number resolves to no cell). -/
def apply_answer (room : Room) (clue : Str) (answer : Str) : ApplyOutcome :=
  match parse_clue clue with
  | none => ⟨none, false, [], none⟩
  | some (num, direction) =>
      let tokens := parse_answer answer
      match get_answer_cells room.puzzle num direction with
      | none => ⟨none, true, [], none⟩
      | some coordinates =>
          if tokens.length ≠ coordinates.length then ⟨none, false, [], none⟩
          else
            let pairs := tokens.zip coordinates
            let grid := writeValues room.cells pairs
            match updateFilled room.puzzle grid room.puzzle.across_clues "a".toList
                room.across_clues_filled with
            | none => ⟨none, true, pairs, none⟩
            | some af =>
                match updateFilled room.puzzle grid room.puzzle.down_clues "d".toList
                    room.down_clues_filled with
                | none => ⟨none, true, pairs, none⟩
                | some df =>
                    let state :=
                      if grid = room.puzzle.cells then "complete".toList
                      else room.play_pause_state
                    let room' : Room :=
                      { play_pause_state := state
                        puzzle := room.puzzle
                        cells := grid
                        across_clues_filled := af
                        down_clues_filled := df }
                    ⟨some room', false, pairs, some room'⟩

/-! ## The REST answer endpoint (`server.answer`) and helpers -/

/-- Result of a Python call: a returned value or an uncaught exception. -/
inductive PyRet (α : Type)
  | ret (a : α)
  | exn
deriving Repr, DecidableEq

/-- The answer-building loop of `rooms.get_correct_answer`: concatenate the
per-cell solution values, wrapping multi-character (rebus) values in
parentheses. -/
def serializeAnswer (vals : List Str) : Str :=
  vals.foldl
    (fun acc v => acc ++ (if v.length = 1 then v else '(' :: (v ++ [')'])))
    []

/-- `rooms.get_correct_answer`: rebuild the authoritative answer string for
a clue from the puzzle's solution cells, wrapping multi-character (rebus)
values in parentheses.  `.ret none` models the Python `None` returns;
`.exn` models the `TypeError` raised when the clue resolves to no cells. -/
def get_correct_answer (room? : Option Room) (clue : Str) : PyRet (Option Str) :=
  match room? with
  | none => .ret none
  | some room =>
      match parse_clue clue with
      | none => .ret none
      | some (num, direction) =>
          match get_answer_cells room.puzzle num direction with
          | none => .exn
          | some coords =>
              match listMapM (fun xy => solAt room.puzzle xy.1 xy.2) coords with
              | none => .exn
              | some vals => .ret (some (serializeAnswer vals))

/-- HTTP responses the answer endpoint can produce (`e500` models an
uncaught exception escaping the handler). -/
inductive HResp
  | ok204
  | e400
  | e403
  | e404
  | e409
  | e413
  | e500
deriving Repr, DecidableEq

/-- What a request to the answer endpoint does: the response, the cell
writes performed on the in-memory room, and the room persisted via
`set_room`, if any. -/
structure EndpointOutcome where
  resp : HResp
  writes : List (Str × (Nat × Nat))
  persisted : Option Room
deriving Repr, DecidableEq

/-- The `rooms.apply_answer` call at the end of `server.answer` together
with the translation of its result into an HTTP response. -/
def answer_apply_stage (room : Room) (clue : Str) (answer : Str) : EndpointOutcome :=
  let o := apply_answer room clue answer
  match o.result with
  | some _ => ⟨.ok204, o.writes, o.persisted⟩
  | none => ⟨if o.crashed then .e500 else .e404, o.writes, o.persisted⟩

/-- `server.answer` (`PUT /<channel>/answer/<clue>`): size check, room
lookup, play-state check, answer normalization, the
`only_allow_correct_answers` validation against `get_correct_answer`, and
finally `apply_answer`.  (server.py passes an extra `allow_clearing` flag
in this call; the `apply_answer` present in this source tree takes four
arguments and has no such flag, so the apply stage here is embedded from
`rooms.apply_answer` as it stands in the tree.) -/
def answer_endpoint (content_length : Nat) (room? : Option Room)
    (room_settings : Settings) (clue : Str) (body : Str) : EndpointOutcome :=
  if content_length > 1024 then ⟨.e413, [], none⟩
  else
    match room? with
    | none => ⟨.e404, [], none⟩
    | some room =>
        if room.play_pause_state ≠ "playing".toList then ⟨.e409, [], none⟩
        else
          let answer := upperStr (strip (removeSpaces body))
          if answer.length = 0 then ⟨.e400, [], none⟩
          else
            if room_settings.only_allow_correct_answers then
              match get_correct_answer room? clue with
              | .exn => ⟨.e500, [], none⟩
              | .ret none => ⟨.e500, [], none⟩
              | .ret (some correct) =>
                  if answer.length ≠ correct.length then ⟨.e403, [], none⟩
                  else if (answer.zip correct).any
                      (fun ac => decide (ac.1 ≠ '.' ∧ ac.1 ≠ ac.2)) then
                    ⟨.e403, [], none⟩
                  else answer_apply_stage room clue answer
            else answer_apply_stage room clue answer

/-! ## The `join` socket handler (`server.flatten`) -/

/-- A message emitted to the joining client. -/
inductive Emitted
  | state (r : Room)
  | settingsMsg (s : Settings)
deriving Repr, DecidableEq

/-- `server.flatten`: the directed messages sent to a client joining a room.
When a room exists its snapshot is sanitized by replacing the puzzle's
solution grid with the current cells; when none exists the handler returns
before emitting anything. -/
def join (room? : Option Room) (room_settings : Settings) : List Emitted :=
  match room? with
  | none => []
  | some room =>
      let puzzle := { room.puzzle with cells := room.cells }
      let room := { room with puzzle := puzzle }
      [.state room, .settingsMsg room_settings]

/-! ## The settings handler (`server.set_settings`) -/

/-- The key/value change dict of a `set_settings` event, restricted to the
two fields `settings.Settings` defines. -/
structure SettingsChanges where
  only_allow_correct_answers : Option Bool := none
  hide_clues : Option Str := none
deriving Repr, DecidableEq

/-- `attr.evolve(existing_settings, **changes)`. -/
def merge_settings (s : Settings) (c : SettingsChanges) : Settings :=
  { only_allow_correct_answers :=
      c.only_allow_correct_answers.getD s.only_allow_correct_answers
    hide_clues := c.hide_clues.getD s.hide_clues }

/-- Modelled from the spec: the cell sweep of `rooms.clear_incorrect_cells`
(the function `server.set_settings` calls is not present in this source
tree).  Per §4.4 it sweeps all fillable cells and clears (sets to the empty
string) every cell whose current value disagrees with the solution, under
the §4.3 equality rule; blocked positions are untouched. -/
def clearedGrid (room : Room) : List (List (Option Str)) :=
  (List.range room.puzzle.rows).map (fun y =>
    (List.range room.puzzle.cols).map (fun x =>
      match solAt room.puzzle x y with
      | none => cellAt room.cells x y
      | some sol =>
          match cellAt room.cells x y with
          | none => none
          | some v => if v = sol then some v else some []))

/-- Modelled from the spec: `rooms.clear_incorrect_cells`, which
`server.set_settings` calls, is not present in this source tree.  Per §4.4
it clears every cell disagreeing with the solution (the sweep above) and
recomputes the filled-maps and completion exactly as `apply_answer` does;
`none` models the exception raised when a clue number resolves to no
cells. -/
def clear_incorrect_cells (room : Room) : Option Room :=
  let grid := clearedGrid room
  match updateFilled room.puzzle grid room.puzzle.across_clues "a".toList
      room.across_clues_filled with
  | none => none
  | some af =>
      match updateFilled room.puzzle grid room.puzzle.down_clues "d".toList
          room.down_clues_filled with
      | none => none
      | some df =>
          some
            { play_pause_state :=
                if grid = room.puzzle.cells then "complete".toList
                else room.play_pause_state
              puzzle := room.puzzle
              cells := grid
              across_clues_filled := af
              down_clues_filled := df }

/-- What a `set_settings` socket event does. -/
structure SettingsOutcome where
  saved_settings : Settings
  persisted_room : Option Room
  crashed : Bool
deriving Repr, DecidableEq

/-- `server.set_settings`: merge the changes, persist the settings, and —
when the merged settings enable `only_allow_correct_answers` — run
`clear_incorrect_cells` on the room and persist the result. -/
def set_settings_event (room? : Option Room) (existing : Settings)
    (changes : SettingsChanges) : SettingsOutcome :=
  let updated := merge_settings existing changes
  if updated.only_allow_correct_answers then
    match room? with
    | none => ⟨updated, none, true⟩
    | some room =>
        match clear_incorrect_cells room with
        | none => ⟨updated, none, true⟩
        | some room' => ⟨updated, some room', false⟩
  else ⟨updated, none, false⟩

/-! ## Persisted JSON representation (`puzzles.Puzzle.to_json/from_json`)

The persisted form is modelled at the JSON-value level; `json.dumps` /
`json.loads` (the Python stdlib's faithful bijection between that level and
text) is not re-modelled.  What the source adds on top of it is modelled
exactly: `attr.asdict`, the ISO-8601 date encoding, and — crucially — the
coercion of integer dict keys to strings that `json.dumps` performs. -/

/-- A JSON value. -/
inductive JValue
  | null
  | jbool (b : Bool)
  | jnum (n : Int)
  | jstr (s : Str)
  | jarr (xs : List JValue)
  | jobj (fields : List (Str × JValue))

/-- Python `str(n)` for a natural number. -/
def natToStr (n : Nat) : Str := Nat.toDigits 10 n

/-- Zero-pad a digit string on the left to width `k`. -/
def padZeros (k : Nat) (s : Str) : Str := List.replicate (k - s.length) '0' ++ s

/-- `datetime.date.isoformat`: `YYYY-MM-DD`. -/
def dateToIso (d : Date) : Str :=
  padZeros 4 (natToStr d.year) ++ '-' :: (padZeros 2 (natToStr d.month) ++
    '-' :: padZeros 2 (natToStr d.day))

/-- `datetime.date.fromisoformat`: parse exactly `YYYY-MM-DD` (calendar
bounds checked to the extent this code base can observe). -/
def isoToDate (s : Str) : Option Date :=
  match s with
  | [y1, y2, y3, y4, h1, m1, m2, h2, d1, d2] =>
      if h1 = '-' ∧ h2 = '-' then
        match parseDigits [y1, y2, y3, y4], parseDigits [m1, m2], parseDigits [d1, d2] with
        | some y, some m, some d =>
            if 1 ≤ m ∧ m ≤ 12 ∧ 1 ≤ d ∧ d ≤ 31 then some ⟨y, m, d⟩ else none
        | _, _, _ => none
      else none
  | _ => none

/-- A Python dict key as it exists at runtime: an int before serialization,
a string after `json.loads`. -/
inductive PyKey
  | int (n : Int)
  | str (s : Str)
deriving Repr, DecidableEq

/-- The puzzle object as `Puzzle.from_json` actually builds it
(`cls(**json.loads(s))` with only `published` decoded): structurally a
puzzle, but with dict keys of either runtime type. -/
structure PuzzleDyn where
  rows : Nat
  cols : Nat
  title : Str
  publisher : Str
  published : Date
  author : Str
  cells : List (List (Option Str))
  cell_clue_numbers : List (List Nat)
  cell_circles : List (List Bool)
  across_clues : List (PyKey × Str)
  down_clues : List (PyKey × Str)
deriving Repr, DecidableEq

/-- A well-typed `puzzles.Puzzle` viewed as its runtime object (int keys). -/
def puzzleToDyn (p : Puzzle) : PuzzleDyn :=
  { rows := p.rows, cols := p.cols, title := p.title, publisher := p.publisher
    published := p.published, author := p.author, cells := p.cells
    cell_clue_numbers := p.cell_clue_numbers, cell_circles := p.cell_circles
    across_clues := p.across_clues.map (fun kv => (PyKey.int kv.1, kv.2))
    down_clues := p.down_clues.map (fun kv => (PyKey.int kv.1, kv.2)) }

/-- `Puzzle.to_json` up to `json.dumps`: `attr.asdict(self)` with
`published` replaced by its ISO string; `json.dumps` stringifies the int
keys of the clue dicts. -/
def puzzle_to_jv (p : Puzzle) : JValue :=
  .jobj
    [("rows".toList, .jnum p.rows),
     ("cols".toList, .jnum p.cols),
     ("title".toList, .jstr p.title),
     ("publisher".toList, .jstr p.publisher),
     ("published".toList, .jstr (dateToIso p.published)),
     ("author".toList, .jstr p.author),
     ("cells".toList, .jarr (p.cells.map (fun row => .jarr (row.map (fun cell =>
        match cell with
        | none => JValue.null
        | some v => JValue.jstr v))))),
     ("cell_clue_numbers".toList, .jarr (p.cell_clue_numbers.map (fun row =>
        .jarr (row.map (fun n => JValue.jnum n))))),
     ("cell_circles".toList, .jarr (p.cell_circles.map (fun row =>
        .jarr (row.map (fun b => JValue.jbool b))))),
     ("across_clues".toList, .jobj (p.across_clues.map (fun kv =>
        (natToStr kv.1, JValue.jstr kv.2)))),
     ("down_clues".toList, .jobj (p.down_clues.map (fun kv =>
        (natToStr kv.1, JValue.jstr kv.2))))]

/-- Lookup a key in a JSON object's field list. -/
def jget (fields : List (Str × JValue)) (k : Str) : Option JValue :=
  match fields with
  | [] => none
  | (k', v) :: rest => if k' = k then some v else jget rest k

def asNat : JValue → Option Nat
  | .jnum n => if n ≥ 0 then some n.toNat else none
  | _ => none

def asStr : JValue → Option Str
  | .jstr s => some s
  | _ => none

def asCellRow : JValue → Option (List (Option Str))
  | .jarr xs => xs.mapM (fun v =>
      match v with
      | .null => some none
      | .jstr s => some (some s)
      | _ => none)
  | _ => none

def asNatRow : JValue → Option (List Nat)
  | .jarr xs => xs.mapM asNat
  | _ => none

def asBoolRow : JValue → Option (List Bool)
  | .jarr xs => xs.mapM (fun v => match v with | .jbool b => some b | _ => none)
  | _ => none

def asGrid : JValue → Option (List (List (Option Str)))
  | .jarr rows => rows.mapM asCellRow
  | _ => none

def asNatGrid : JValue → Option (List (List Nat))
  | .jarr rows => rows.mapM asNatRow
  | _ => none

def asBoolGrid : JValue → Option (List (List Bool))
  | .jarr rows => rows.mapM asBoolRow
  | _ => none

/-- A clue dict as it comes back from `json.loads`: the keys stay strings,
because `Puzzle.from_json` converts only `published` back. -/
def asClueDict : JValue → Option (List (PyKey × Str))
  | .jobj fields => fields.mapM (fun kv =>
      (asStr kv.2).map (fun s => (PyKey.str kv.1, s)))
  | _ => none

/-- `Puzzle.from_json` from `json.loads` onward: decode `published` from its
ISO string and rebuild the object with `cls(**d)`; every other field is
taken as the JSON gave it — in particular the clue-dict keys remain
strings. -/
def puzzle_from_jv (j : JValue) : Option PuzzleDyn :=
  match j with
  | .jobj d =>
      match jget d "rows".toList, jget d "cols".toList, jget d "title".toList,
          jget d "publisher".toList, jget d "published".toList, jget d "author".toList,
          jget d "cells".toList, jget d "cell_clue_numbers".toList,
          jget d "cell_circles".toList, jget d "across_clues".toList,
          jget d "down_clues".toList with
      | some jrows, some jcols, some jtitle, some jpublisher, some jpublished,
          some jauthor, some jcells, some jnums, some jcircles, some jac, some jdc =>
          match asNat jrows, asNat jcols, asStr jtitle, asStr jpublisher,
              (asStr jpublished).bind isoToDate, asStr jauthor, asGrid jcells,
              asNatGrid jnums, asBoolGrid jcircles, asClueDict jac, asClueDict jdc with
          | some rows, some cols, some title, some publisher, some published,
              some author, some cells, some nums, some circles, some ac, some dc =>
              some ⟨rows, cols, title, publisher, published, author, cells, nums,
                circles, ac, dc⟩
          | _, _, _, _, _, _, _, _, _, _, _ => none
      | _, _, _, _, _, _, _, _, _, _, _ => none
  | _ => none

/-! ## Well-formedness and basic lemmas -/

/-- A rows×cols grid stored as a list of row lists. -/
def GridWF {α : Type} (grid : List (List α)) (rows cols : Nat) : Prop :=
  grid.length = rows ∧ ∀ row ∈ grid, row.length = cols

/-- The room invariant of §3: the cell grid has the puzzle's dimensions. -/
def RoomWF (room : Room) : Prop :=
  GridWF room.cells room.puzzle.rows room.puzzle.cols

theorem setNth_length {α : Type} (l : List α) (n : Nat) (v : α) :
    (setNth l n v).length = l.length := by
  induction l generalizing n with
  | nil => rfl
  | cons a rest ih =>
      cases n with
      | zero => rfl
      | succ n => simpa [setNth] using ih n

theorem setNth_getElem? {α : Type} (l : List α) (n : Nat) (v : α) (m : Nat) :
    (setNth l n v)[m]? =
      if m = n ∧ n < l.length then some v else l[m]? := by
  induction l generalizing n m with
  | nil => simp [setNth]
  | cons a rest ih =>
      cases n with
      | zero =>
          cases m with
          | zero => simp [setNth]
          | succ m => simp [setNth]
      | succ n =>
          cases m with
          | zero => simp [setNth]
          | succ m =>
              simp only [setNth, List.getElem?_cons_succ, ih n m, List.length_cons]
              split_ifs with h1 h2
              · rfl
              · exfalso; omega
              · exfalso; omega
              · rfl

theorem setNth_noop {α : Type} (l : List α) (n : Nat) (v : α)
    (h : l[n]? = some v) : setNth l n v = l := by
  induction l generalizing n with
  | nil => rfl
  | cons a rest ih =>
      cases n with
      | zero => simp_all [setNth]
      | succ n => simp_all [setNth]

theorem setCell_length (grid : List (List (Option Str))) (x y : Nat) (v : Str) :
    (setCell grid x y v).length = grid.length := by
  induction grid generalizing y with
  | nil => rfl
  | cons row rest ih =>
      cases y with
      | zero => rfl
      | succ y => simpa [setCell] using ih y

theorem setCell_WF (grid : List (List (Option Str))) (x y : Nat) (v : Str)
    (rows cols : Nat) (h : GridWF grid rows cols) :
    GridWF (setCell grid x y v) rows cols := by
  induction grid generalizing y rows with
  | nil => cases y <;> exact h
  | cons row rest ih =>
      obtain ⟨hlen, hrow⟩ := h
      cases y with
      | zero =>
          refine ⟨by simpa [setCell] using hlen, ?_⟩
          intro r hr
          rcases List.mem_cons.mp hr with h1 | h1
          · subst h1
            rw [setNth_length]
            exact hrow row (List.mem_cons_self _ _)
          · exact hrow r (List.mem_cons_of_mem _ h1)
      | succ y =>
          cases rows with
          | zero => simp at hlen
          | succ rows =>
              have ih' := ih y rows
                ⟨by simpa using hlen, fun r hr => hrow r (List.mem_cons_of_mem _ hr)⟩
              exact ⟨by simpa [setCell] using ih'.1,
                fun r hr => by
                  rcases List.mem_cons.mp hr with h1 | h1
                  · exact h1 ▸ hrow row (List.mem_cons_self _ _)
                  · exact ih'.2 r h1⟩

theorem setCell_cellAt_eq (grid : List (List (Option Str))) (x y : Nat) (v : Str)
    (hy : y < grid.length) (hx : x < ((grid[y]?).getD []).length) :
    cellAt (setCell grid x y v) x y = some v := by
  induction grid generalizing y with
  | nil => simp at hy
  | cons row rest ih =>
      cases y with
      | zero =>
          simp only [List.getElem?_cons_zero, Option.getD_some] at hx
          simp [setCell, cellAt, setNth_getElem?, hx]
      | succ y =>
          have hy' : y < rest.length := Nat.lt_of_succ_lt_succ hy
          have hx' : x < ((rest[y]?).getD []).length := by simpa using hx
          simpa [setCell, cellAt] using ih y hy' hx'

theorem setCell_cellAt_ne (grid : List (List (Option Str))) (x y : Nat) (v : Str)
    (x' y' : Nat) (h : (x', y') ≠ (x, y)) :
    cellAt (setCell grid x y v) x' y' = cellAt grid x' y' := by
  induction grid generalizing y y' with
  | nil => cases y <;> rfl
  | cons row rest ih =>
      cases y with
      | zero =>
          cases y' with
          | zero =>
              have hx : x' ≠ x := by
                intro hc; exact h (by simp [hc])
              simp [setCell, cellAt, setNth_getElem?, hx]
          | succ y' => simp [setCell, cellAt]
      | succ y =>
          cases y' with
          | zero => simp [setCell, cellAt]
          | succ y' =>
              have h' : (x', y') ≠ (x, y) := by
                intro hc
                apply h
                simp only [Prod.mk.injEq] at hc ⊢
                exact ⟨hc.1, by omega⟩
              simpa [setCell, cellAt] using ih y y' h'

theorem writeValues_spec (rows cols : Nat) :
    ∀ (pairs : List (Str × (Nat × Nat))) (grid : List (List (Option Str))),
      GridWF grid rows cols →
      (pairs.map Prod.snd).Nodup →
      (∀ xy ∈ pairs.map Prod.snd, xy.1 < cols ∧ xy.2 < rows) →
      (∀ vxy ∈ pairs, cellAt (writeValues grid pairs) vxy.2.1 vxy.2.2 = some vxy.1)
      ∧ (∀ x y, (x, y) ∉ pairs.map Prod.snd →
          cellAt (writeValues grid pairs) x y = cellAt grid x y)
      ∧ GridWF (writeValues grid pairs) rows cols := by
  intro pairs
  induction pairs with
  | nil =>
      intro grid hwf _ _
      exact ⟨by simp, fun x y _ => rfl, hwf⟩
  | cons p rest ih =>
      intro grid hwf hnodup hbounds
      obtain ⟨v, x, y⟩ := p
      have hxy : x < cols ∧ y < rows := hbounds (x, y) (by simp)
      have hy : y < grid.length := hwf.1 ▸ hxy.2
      have hx : x < ((grid[y]?).getD []).length := by
        rw [List.getElem?_eq_getElem hy, Option.getD_some,
          hwf.2 _ (List.getElem_mem hy)]
        exact hxy.1
      have hwf' : GridWF (setCell grid x y v) rows cols := setCell_WF _ _ _ _ _ _ hwf
      have hnodup' : (rest.map Prod.snd).Nodup := (List.nodup_cons.mp hnodup).2
      have hnotin : (x, y) ∉ rest.map Prod.snd := (List.nodup_cons.mp hnodup).1
      have hbounds' : ∀ xy ∈ rest.map Prod.snd, xy.1 < cols ∧ xy.2 < rows :=
        fun xy hxy' => hbounds xy (by simp [hxy'])
      obtain ⟨ih1, ih2, ih3⟩ := ih (setCell grid x y v) hwf' hnodup' hbounds'
      have hw : writeValues grid ((v, (x, y)) :: rest) =
          writeValues (setCell grid x y v) rest := rfl
      refine ⟨?_, ?_, hw ▸ ih3⟩
      · intro vxy hmem
        rcases List.mem_cons.mp hmem with h1 | h1
        · subst h1
          rw [hw, ih2 x y hnotin]
          exact setCell_cellAt_eq grid x y v hy hx
        · exact hw ▸ ih1 vxy h1
      · intro x' y' hnot
        have hne : (x', y') ≠ (x, y) := by
          intro hc
          exact hnot (by simp [hc])
        have hnot' : (x', y') ∉ rest.map Prod.snd := by
          intro hc
          exact hnot (by simp [hc])
        rw [hw, ih2 x' y' hnot', setCell_cellAt_ne grid x y v x' y' hne]

theorem setCell_noop (grid : List (List (Option Str))) (x y : Nat) (v : Str)
    (h : cellAt grid x y = some v) : setCell grid x y v = grid := by
  induction grid generalizing y with
  | nil => cases y <;> rfl
  | cons row rest ih =>
      cases y with
      | zero =>
          simp only [cellAt, List.getElem?_cons_zero, Option.getD_some] at h
          have hx : row[x]? = some (some v) := by
            cases hrx : row[x]? with
            | none => rw [hrx] at h; simp at h
            | some cell =>
                rw [hrx] at h
                simp only [Option.getD_some] at h
                rw [h]
          simp [setCell, setNth_noop row x (some v) hx]
      | succ y =>
          have h' : cellAt rest x y = some v := by
            simpa [cellAt] using h
          simp [setCell, ih y h']

theorem writeValues_noop :
    ∀ (pairs : List (Str × (Nat × Nat))) (grid : List (List (Option Str))),
      (∀ vxy ∈ pairs, cellAt grid vxy.2.1 vxy.2.2 = some vxy.1) →
      writeValues grid pairs = grid := by
  intro pairs
  induction pairs with
  | nil => intro grid _; rfl
  | cons p rest ih =>
      intro grid hall
      obtain ⟨v, x, y⟩ := p
      have h0 : cellAt grid x y = some v := hall (v, x, y) (by simp)
      have hw : writeValues grid ((v, (x, y)) :: rest) =
          writeValues (setCell grid x y v) rest := rfl
      rw [hw, setCell_noop grid x y v h0]
      exact ih grid (fun vxy hm => hall vxy (List.mem_cons_of_mem _ hm))

/-! ## Dict lemmas -/

theorem dictGet_dictSet_self {β : Type} (m : List (Nat × β)) (k : Nat) (v : β) :
    dictGet (dictSet m k v) k = some v := by
  induction m with
  | nil => simp [dictGet, dictSet]
  | cons kv rest ih =>
      obtain ⟨k', v'⟩ := kv
      by_cases h : k' = k
      · simp [dictGet, dictSet, h]
      · simp [dictGet, dictSet, h, ih]

theorem dictGet_dictSet_ne {β : Type} (m : List (Nat × β)) (k k' : Nat) (v : β)
    (h : k' ≠ k) : dictGet (dictSet m k v) k' = dictGet m k' := by
  induction m with
  | nil => simp [dictGet, dictSet, Ne.symm h]
  | cons kv rest ih =>
      obtain ⟨k₀, v₀⟩ := kv
      by_cases h0 : k₀ = k
      · subst h0
        simp [dictGet, dictSet, Ne.symm h]
      · simp [dictGet, dictSet, h0, ih]

/-! ## `mapM` and `zip` lemmas -/

theorem listMapM_some_length {α β : Type} (f : α → Option β) :
    ∀ (l : List α) (l' : List β), listMapM f l = some l' → l'.length = l.length := by
  intro l
  induction l with
  | nil =>
      intro l' h
      simp only [listMapM, Option.some.injEq] at h
      simp [← h]
  | cons a rest ih =>
      intro l' h
      cases hf : f a with
      | none => simp [listMapM, hf] at h
      | some b =>
          cases hr : listMapM f rest with
          | none => simp [listMapM, hf, hr] at h
          | some bs =>
              simp only [listMapM, hf, hr, Option.some.injEq] at h
              subst h
              simp [ih bs hr]

theorem listMapM_some_getElem? {α β : Type} (f : α → Option β) :
    ∀ (l : List α) (l' : List β), listMapM f l = some l' →
      ∀ (i : Nat) (a : α), l[i]? = some a → l'[i]? = f a := by
  intro l
  induction l with
  | nil => intro l' h i a ha; simp at ha
  | cons a0 rest ih =>
      intro l' h i a ha
      cases hf : f a0 with
      | none => simp [listMapM, hf] at h
      | some b =>
          cases hr : listMapM f rest with
          | none => simp [listMapM, hf, hr] at h
          | some bs =>
              simp only [listMapM, hf, hr, Option.some.injEq] at h
              subst h
              cases i with
              | zero =>
                  simp only [List.getElem?_cons_zero, Option.some.injEq] at ha
                  subst ha
                  simp [hf]
              | succ i =>
                  simp only [List.getElem?_cons_succ] at ha ⊢
                  exact ih bs hr i a ha

theorem zip_getElem? {α β : Type} :
    ∀ (l : List α) (m : List β) (i : Nat),
      (l.zip m)[i]? =
        match l[i]?, m[i]? with
        | some a, some b => some (a, b)
        | _, _ => none := by
  intro l
  induction l with
  | nil => intro m i; simp
  | cons a rest ih =>
      intro m i
      cases m with
      | nil => simp
      | cons b ms =>
          cases i with
          | zero => simp
          | succ i => simpa using ih ms i

theorem zip_map_snd {α β : Type} :
    ∀ (l : List α) (m : List β), l.length = m.length →
      (l.zip m).map Prod.snd = m := by
  intro l
  induction l with
  | nil =>
      intro m h
      cases m with
      | nil => rfl
      | cons b ms => simp at h
  | cons a rest ih =>
      intro m h
      cases m with
      | nil => simp at h
      | cons b ms =>
          simp only [List.zip_cons_cons, List.map_cons]
          rw [ih ms (by simpa using h)]

/-! ## Walk lemmas -/

theorem walkAux_succ (p : Puzzle) (b : Bool) (fuel x y : Nat)
    (h1 : ¬(x ≥ p.cols ∨ y ≥ p.rows)) (h2 : ¬(solAt p x y = none)) :
    walkAux p b (fuel + 1) x y =
      (x, y) :: walkAux p b fuel (if b then x + 1 else x) (if b then y else y + 1) := by
  simp only [walkAux, if_neg h1, if_neg h2]

theorem walk_in_shape (p : Puzzle) (b : Bool) (x y : Nat)
    (h1 : ¬(x ≥ p.cols ∨ y ≥ p.rows)) (h2 : ¬(solAt p x y = none)) :
    walk p b x y =
      (x, y) :: walk p b (if b then x + 1 else x) (if b then y else y + 1) := by
  have hx : x < p.cols := by omega
  have hy : y < p.rows := by omega
  unfold walk
  rw [walkAux_succ p b ((p.cols - x) + (p.rows - y)) x y h1 h2]
  congr 1
  apply walkAux_fuel
  · cases b <;> simp <;> omega
  · cases b <;> simp

theorem walk_out_shape (p : Puzzle) (b : Bool) (x y : Nat)
    (h : (x ≥ p.cols ∨ y ≥ p.rows) ∨ solAt p x y = none) :
    walk p b x y = [] := by
  unfold walk
  rcases h with h | h
  · simp [walkAux, h]
  · rcases Decidable.em (x ≥ p.cols ∨ y ≥ p.rows) with h1 | h1
    · simp [walkAux, h1]
    · simp [walkAux, h1, h]

theorem walk_getElem? (p : Puzzle) (b : Bool) :
    ∀ (i : Nat) (x y : Nat), i < (walk p b x y).length →
      (walk p b x y)[i]? = some (if b then (x + i, y) else (x, y + i)) := by
  intro i
  induction i with
  | zero =>
      intro x y hlen
      have hne : walk p b x y ≠ [] := by
        intro hc
        rw [hc] at hlen
        simp at hlen
      rcases Decidable.em ((x ≥ p.cols ∨ y ≥ p.rows) ∨ solAt p x y = none) with h | h
      · exact absurd (walk_out_shape p b x y h) hne
      · rw [not_or] at h
        rw [walk_in_shape p b x y h.1 h.2]
        cases b <;> simp
  | succ i ih =>
      intro x y hlen
      have hne : walk p b x y ≠ [] := by
        intro hc
        rw [hc] at hlen
        simp at hlen
      rcases Decidable.em ((x ≥ p.cols ∨ y ≥ p.rows) ∨ solAt p x y = none) with h | h
      · exact absurd (walk_out_shape p b x y h) hne
      · rw [not_or] at h
        rw [walk_in_shape p b x y h.1 h.2] at hlen ⊢
        simp only [List.getElem?_cons_succ]
        have hlen' : i < (walk p b (if b then x + 1 else x)
            (if b then y else y + 1)).length := by
          simpa using hlen
        rw [ih _ _ hlen']
        cases b <;> simp <;> omega

theorem walk_length_pos (p : Puzzle) (b : Bool) (x y : Nat)
    (hx : x < p.cols) (hy : y < p.rows) (hfill : solAt p x y ≠ none) :
    walk p b x y ≠ [] := by
  rw [walk_in_shape p b x y (by omega) hfill]
  simp

theorem walk_stop (p : Puzzle) (b : Bool) :
    ∀ (n : Nat) (x y : Nat), (walk p b x y).length = n →
      ((if b then x + n else x) ≥ p.cols ∨ (if b then y else y + n) ≥ p.rows) ∨
        solAt p (if b then x + n else x) (if b then y else y + n) = none := by
  intro n
  induction n with
  | zero =>
      intro x y hlen
      rcases Decidable.em ((x ≥ p.cols ∨ y ≥ p.rows) ∨ solAt p x y = none) with h | h
      · rcases h with h | h
        · left; cases b <;> simpa using h
        · right; cases b <;> simpa using h
      · rw [not_or] at h
        rw [walk_in_shape p b x y h.1 h.2] at hlen
        simp at hlen
  | succ n ih =>
      intro x y hlen
      rcases Decidable.em ((x ≥ p.cols ∨ y ≥ p.rows) ∨ solAt p x y = none) with h | h
      · rw [walk_out_shape p b x y h] at hlen
        simp at hlen
      · rw [not_or] at h
        rw [walk_in_shape p b x y h.1 h.2] at hlen
        simp only [List.length_cons, Nat.succ.injEq] at hlen
        cases b with
        | false =>
            have hstep := ih x (y + 1) (by simpa using hlen)
            simp only [Bool.false_eq_true, if_false] at hstep ⊢
            have e : y + (n + 1) = y + 1 + n := by omega
            rw [e]
            exact hstep
        | true =>
            have hstep := ih (x + 1) y (by simpa using hlen)
            simp only [if_true] at hstep ⊢
            have e : x + (n + 1) = x + 1 + n := by omega
            rw [e]
            exact hstep

theorem walk_mem (p : Puzzle) (b : Bool) :
    ∀ (fuel x y : Nat), (p.cols - x) + (p.rows - y) ≤ fuel →
      ∀ c ∈ walk p b x y, c.1 < p.cols ∧ c.2 < p.rows ∧ solAt p c.1 c.2 ≠ none := by
  intro fuel
  induction fuel with
  | zero =>
      intro x y hfuel c hc
      have h : (x ≥ p.cols ∨ y ≥ p.rows) ∨ solAt p x y = none := by
        left; omega
      rw [walk_out_shape p b x y h] at hc
      simp at hc
  | succ fuel ih =>
      intro x y hfuel c hc
      rcases Decidable.em ((x ≥ p.cols ∨ y ≥ p.rows) ∨ solAt p x y = none) with h | h
      · rw [walk_out_shape p b x y h] at hc
        simp at hc
      · rw [not_or, not_or] at h
        obtain ⟨⟨hx, hy⟩, hfill⟩ := h
        rw [walk_in_shape p b x y (by omega) hfill] at hc
        rcases List.mem_cons.mp hc with h1 | h1
        · subst h1
          exact ⟨by omega, by omega, hfill⟩
        · refine ih (if b then x + 1 else x) (if b then y else y + 1) ?_ c h1
          cases b <;> simp <;> omega

theorem walk_sum_le (p : Puzzle) (b : Bool) :
    ∀ (fuel x y : Nat), (p.cols - x) + (p.rows - y) ≤ fuel →
      ∀ c ∈ walk p b x y, x + y ≤ c.1 + c.2 := by
  intro fuel
  induction fuel with
  | zero =>
      intro x y hfuel c hc
      rw [walk_out_shape p b x y (by left; omega)] at hc
      simp at hc
  | succ fuel ih =>
      intro x y hfuel c hc
      rcases Decidable.em ((x ≥ p.cols ∨ y ≥ p.rows) ∨ solAt p x y = none) with h | h
      · rw [walk_out_shape p b x y h] at hc
        simp at hc
      · rw [not_or, not_or] at h
        obtain ⟨⟨hx, hy⟩, hfill⟩ := h
        rw [walk_in_shape p b x y (by omega) hfill] at hc
        rcases List.mem_cons.mp hc with h1 | h1
        · subst h1; omega
        · have := ih (if b then x + 1 else x) (if b then y else y + 1)
            (by cases b <;> simp <;> omega) c h1
          cases b <;> simp at this <;> omega

theorem walk_nodup (p : Puzzle) (b : Bool) :
    ∀ (fuel x y : Nat), (p.cols - x) + (p.rows - y) ≤ fuel →
      (walk p b x y).Nodup := by
  intro fuel
  induction fuel with
  | zero =>
      intro x y hfuel
      rw [walk_out_shape p b x y (by left; omega)]
      exact List.nodup_nil
  | succ fuel ih =>
      intro x y hfuel
      rcases Decidable.em ((x ≥ p.cols ∨ y ≥ p.rows) ∨ solAt p x y = none) with h | h
      · rw [walk_out_shape p b x y h]
        exact List.nodup_nil
      · rw [not_or, not_or] at h
        obtain ⟨⟨hx, hy⟩, hfill⟩ := h
        rw [walk_in_shape p b x y (by omega) hfill]
        have hnext : p.cols - (if b then x + 1 else x) +
            (p.rows - (if b then y else y + 1)) ≤ fuel := by
          cases b <;> simp <;> omega
        refine List.nodup_cons.mpr ⟨?_, ih _ _ hnext⟩
        intro hmem
        have := walk_sum_le p b fuel (if b then x + 1 else x) (if b then y else y + 1)
          hnext (x, y) hmem
        cases b <;> simp at this

/-! ## Find-start lemmas -/

theorem foldl_if_update_of_none {α β : Type} (P : α → Prop) [DecidablePred P]
    (v : α → β) :
    ∀ (l : List α) (init : Option β), (∀ a ∈ l, ¬P a) →
      l.foldl (fun cur a => if P a then some (v a) else cur) init = init := by
  intro l
  induction l with
  | nil => intro init _; rfl
  | cons a rest ih =>
      intro init h
      have ha : ¬P a := h a (by simp)
      simp only [List.foldl_cons, if_neg ha]
      exact ih init (fun b hb => h b (by simp [hb]))

theorem foldl_if_update_unique {α β : Type} (P : α → Prop) [DecidablePred P]
    (v : α → β) :
    ∀ (l : List α) (init : Option β) (a : α), a ∈ l → P a →
      (∀ b ∈ l, P b → b = a) →
      l.foldl (fun cur a => if P a then some (v a) else cur) init = some (v a) := by
  intro l
  induction l with
  | nil => intro init a ha; simp at ha
  | cons c rest ih =>
      intro init a ha hP huniq
      by_cases hrest : ∃ b ∈ rest, P b
      · obtain ⟨b, hb, hPb⟩ := hrest
        have hba : b = a := huniq b (by simp [hb]) hPb
        subst hba
        exact List.foldl_cons _ _ ▸ ih _ b hb hPb
          (fun b' hb' hPb' => huniq b' (by simp [hb']) hPb')
      · push_neg at hrest
        have hac : a = c := by
          rcases List.mem_cons.mp ha with h1 | h1
          · exact h1
          · exact absurd hP (hrest a h1)
        subst hac
        simp only [List.foldl_cons, if_pos hP]
        exact foldl_if_update_of_none P v rest (some (v a)) hrest

theorem foldl_bind' {α β γ : Type} (g : γ → β → γ) (f : α → List β) :
    ∀ (l : List α) (init : γ),
      (l.flatMap f).foldl g init = l.foldl (fun acc a => (f a).foldl g acc) init := by
  intro l
  induction l with
  | nil => intro init; rfl
  | cons a rest ih =>
      intro init
      simp only [List.flatMap_cons, List.foldl_append, List.foldl_cons]
      exact ih _

/-- The row-major coordinate enumeration of the double scan. -/
def allPairs (p : Puzzle) : List (Nat × Nat) :=
  (List.range p.rows).flatMap (fun y => (List.range p.cols).map (fun x => (x, y)))

theorem mem_allPairs (p : Puzzle) (xy : Nat × Nat) :
    xy ∈ allPairs p ↔ xy.1 < p.cols ∧ xy.2 < p.rows := by
  obtain ⟨x, y⟩ := xy
  simp only [allPairs, List.mem_flatMap, List.mem_map, List.mem_range]
  constructor
  · rintro ⟨y', hy', x', hx', hxy⟩
    obtain ⟨h1, h2⟩ := Prod.mk.injEq .. ▸ hxy
    simp only [Prod.mk.injEq] at hxy
    exact ⟨hxy.1 ▸ hx', hxy.2 ▸ hy'⟩
  · rintro ⟨hx, hy⟩
    exact ⟨y, hy, x, hx, rfl⟩

theorem find_start_eq (p : Puzzle) (num : Int) :
    find_start p num =
      (allPairs p).foldl
        (fun cur xy => if (cellNumAt p xy.1 xy.2 : Int) = num then some xy else cur)
        none := by
  rw [allPairs, foldl_bind']
  simp only [find_start, List.foldl_map]

theorem find_start_none (p : Puzzle) (num : Int)
    (h : ∀ x < p.cols, ∀ y < p.rows, (cellNumAt p x y : Int) ≠ num) :
    find_start p num = none := by
  rw [find_start_eq]
  exact foldl_if_update_of_none _ id (allPairs p) none
    (fun xy hxy => h xy.1 ((mem_allPairs p xy).mp hxy).1 xy.2 ((mem_allPairs p xy).mp hxy).2)

theorem find_start_unique (p : Puzzle) (num : Int) (x₀ y₀ : Nat)
    (hx : x₀ < p.cols) (hy : y₀ < p.rows) (hnum : (cellNumAt p x₀ y₀ : Int) = num)
    (huniq : ∀ x < p.cols, ∀ y < p.rows, (cellNumAt p x y : Int) = num → (x, y) = (x₀, y₀)) :
    find_start p num = some (x₀, y₀) := by
  rw [find_start_eq]
  exact foldl_if_update_unique _ id (allPairs p) none (x₀, y₀)
    ((mem_allPairs p _).mpr ⟨hx, hy⟩) hnum
    (fun b hb hPb => huniq b.1 ((mem_allPairs p b).mp hb).1 b.2
      ((mem_allPairs p b).mp hb).2 hPb)

theorem get_answer_cells_shape (p : Puzzle) (num : Int) (dir : Str)
    (coords : List (Nat × Nat)) (h : get_answer_cells p num dir = some coords) :
    coords.Nodup ∧ ∀ c ∈ coords, c.1 < p.cols ∧ c.2 < p.rows ∧ solAt p c.1 c.2 ≠ none := by
  unfold get_answer_cells at h
  cases hfs : find_start p num with
  | none => rw [hfs] at h; simp at h
  | some xy =>
      obtain ⟨x, y⟩ := xy
      rw [hfs] at h
      simp only [Option.some.injEq] at h
      subst h
      constructor
      · exact walk_nodup p _ (p.cols - x + (p.rows - y)) x y le_rfl
      · exact walk_mem p _ (p.cols - x + (p.rows - y)) x y le_rfl

/-! ## Filled-map recomputation lemmas -/

theorem filledEntry_isSome (p : Puzzle) (g : List (List (Option Str))) (n : Nat)
    (dir : Str) :
    (filledEntry p g n dir).isSome = (get_answer_cells p (n : Int) dir).isSome := by
  unfold filledEntry
  cases get_answer_cells p (n : Int) dir <;> simp

theorem updateFilled_isSome_iff (p : Puzzle) (g : List (List (Option Str))) (dir : Str) :
    ∀ (clues : List (Nat × Str)) (m : List (Nat × Bool)),
      (updateFilled p g clues dir m).isSome ↔
        ∀ kv ∈ clues, (get_answer_cells p (kv.1 : Int) dir).isSome := by
  intro clues
  induction clues with
  | nil => intro m; simp [updateFilled]
  | cons kv rest ih =>
      intro m
      cases hfe : filledEntry p g kv.1 dir with
      | none =>
          have : ¬(get_answer_cells p (kv.1 : Int) dir).isSome := by
            rw [← filledEntry_isSome p g kv.1 dir, hfe]
            simp
          simp only [updateFilled, hfe]
          simp [this]
      | some b =>
          have hsome : (get_answer_cells p (kv.1 : Int) dir).isSome := by
            rw [← filledEntry_isSome p g kv.1 dir, hfe]
            simp
          simp only [updateFilled, hfe]
          rw [ih (dictSet m kv.1 b)]
          constructor
          · intro h kv' hkv'
            rcases List.mem_cons.mp hkv' with h1 | h1
            · exact h1 ▸ hsome
            · exact h kv' h1
          · intro h kv' hkv'
            exact h kv' (by simp [hkv'])

theorem updateFilled_not_mem (p : Puzzle) (g : List (List (Option Str))) (dir : Str) :
    ∀ (clues : List (Nat × Str)) (m m' : List (Nat × Bool)),
      updateFilled p g clues dir m = some m' →
      ∀ n, n ∉ clues.map Prod.fst → dictGet m' n = dictGet m n := by
  intro clues
  induction clues with
  | nil =>
      intro m m' h n _
      simp only [updateFilled, Option.some.injEq] at h
      rw [h]
  | cons kv rest ih =>
      intro m m' h n hn
      cases hfe : filledEntry p g kv.1 dir with
      | none => simp [updateFilled, hfe] at h
      | some b =>
          simp only [updateFilled, hfe] at h
          have hn1 : n ≠ kv.1 := by
            intro hc
            exact hn (by simp [hc])
          have hn2 : n ∉ rest.map Prod.fst := by
            intro hc
            exact hn (by simp [hc])
          rw [ih (dictSet m kv.1 b) m' h n hn2, dictGet_dictSet_ne m kv.1 n b hn1]

theorem updateFilled_dictGet (p : Puzzle) (g : List (List (Option Str))) (dir : Str) :
    ∀ (clues : List (Nat × Str)) (m m' : List (Nat × Bool)),
      (clues.map Prod.fst).Nodup →
      updateFilled p g clues dir m = some m' →
      ∀ n t, (n, t) ∈ clues → ∀ b, filledEntry p g n dir = some b →
        dictGet m' n = some b := by
  intro clues
  induction clues with
  | nil => intro m m' _ _ n t hmem; simp at hmem
  | cons kv rest ih =>
      intro m m' hnodup h n t hmem b hb
      simp only [List.map_cons, List.nodup_cons] at hnodup
      cases hfe : filledEntry p g kv.1 dir with
      | none => simp [updateFilled, hfe] at h
      | some b0 =>
          simp only [updateFilled, hfe] at h
          rcases List.mem_cons.mp hmem with h1 | h1
          · have hk1 : kv.1 = n := by rw [← h1]
            have hb0 : b0 = b := by
              rw [hk1] at hfe
              rw [hfe] at hb
              exact Option.some.inj hb
            have hnotin : n ∉ rest.map Prod.fst := hk1 ▸ hnodup.1
            rw [updateFilled_not_mem p g dir rest _ m' h n hnotin, ← hk1,
              dictGet_dictSet_self m kv.1 b0, hb0]
          · exact ih (dictSet m kv.1 b0) m' hnodup.2 h n t h1 b hb

/-! ## Master lemma for a successful `apply_answer` -/

theorem apply_answer_success (room : Room) (clue answer : Str) (num : Int)
    (direction : Str) (coords : List (Nat × Nat))
    (hclue : parse_clue clue = some (num, direction))
    (hcells : get_answer_cells room.puzzle num direction = some coords)
    (hlen : (parse_answer answer).length = coords.length)
    (hups_a : ∀ kv ∈ room.puzzle.across_clues,
      (get_answer_cells room.puzzle (kv.1 : Int) "a".toList).isSome)
    (hups_d : ∀ kv ∈ room.puzzle.down_clues,
      (get_answer_cells room.puzzle (kv.1 : Int) "d".toList).isSome) :
    ∃ room',
      apply_answer room clue answer =
        ⟨some room', false, (parse_answer answer).zip coords, some room'⟩
      ∧ room'.puzzle = room.puzzle
      ∧ room'.cells = writeValues room.cells ((parse_answer answer).zip coords)
      ∧ room'.play_pause_state =
          (if room'.cells = room.puzzle.cells then "complete".toList
           else room.play_pause_state)
      ∧ updateFilled room.puzzle room'.cells room.puzzle.across_clues "a".toList
          room.across_clues_filled = some room'.across_clues_filled
      ∧ updateFilled room.puzzle room'.cells room.puzzle.down_clues "d".toList
          room.down_clues_filled = some room'.down_clues_filled := by
  have haf : (updateFilled room.puzzle
      (writeValues room.cells ((parse_answer answer).zip coords))
      room.puzzle.across_clues "a".toList room.across_clues_filled).isSome := by
    rw [updateFilled_isSome_iff]
    exact hups_a
  have hdf : (updateFilled room.puzzle
      (writeValues room.cells ((parse_answer answer).zip coords))
      room.puzzle.down_clues "d".toList room.down_clues_filled).isSome := by
    rw [updateFilled_isSome_iff]
    exact hups_d
  obtain ⟨af, haf⟩ := Option.isSome_iff_exists.mp haf
  obtain ⟨df, hdf⟩ := Option.isSome_iff_exists.mp hdf
  refine ⟨⟨(if writeValues room.cells ((parse_answer answer).zip coords) =
        room.puzzle.cells then "complete".toList else room.play_pause_state),
      room.puzzle, writeValues room.cells ((parse_answer answer).zip coords),
      af, df⟩, ?_, rfl, rfl, rfl, haf, hdf⟩
  simp only [apply_answer, hclue, hcells, hlen]
  simp only [ne_eq, not_true_eq_false, if_false, haf, hdf]

/-! ## Concrete fixtures used by counterexamples and witnesses -/

/-- A 1×4 puzzle whose only across answer (clue 1) is `DATE`. -/
def examplePuzzle : Puzzle :=
  { rows := 1, cols := 4, title := "T".toList, publisher := "P".toList,
    published := ⟨2020, 1, 2⟩, author := "A".toList,
    cells := [[some ['D'], some ['A'], some ['T'], some ['E']]],
    cell_clue_numbers := [[1, 0, 0, 0]],
    cell_circles := [[false, false, false, false]],
    across_clues := [(1, "a clue".toList)],
    down_clues := [] }

/-- A playing room over `examplePuzzle` with some prior cell contents
(`Z`, empty, `X`, empty). -/
def exampleRoom : Room :=
  { play_pause_state := "playing".toList,
    puzzle := examplePuzzle,
    cells := [[some ['Z'], some [], some ['X'], some []]],
    across_clues_filled := [(1, false)],
    down_clues_filled := [] }

/-! ## Claim C1 -/

/-- Claim C1 as stated is false: applying `AB.D` to clue `1a` of
`exampleRoom` does not leave the third cell at its prior value `X` — the
write loop of `apply_answer` writes every parsed token, so the
unknown-marker position is overwritten with the empty string. -/
theorem C1_counterexample :
    cellAt exampleRoom.cells 2 0 = some ['X']
    ∧ parse_answer "AB.D".toList = [['A'], ['B'], [], ['D']]
    ∧ ((apply_answer exampleRoom "1a".toList "AB.D".toList).result.map
        (fun r => cellAt r.cells 2 0)) = some (some []) := by
  exact ⟨rfl, rfl, rfl⟩

/-- Claim C1 (amended): for every accepted answer, `apply_answer` writes
every parsed token — the unknown-marker (empty) tokens included — into the
corresponding cell, so an unknown-marked position is overwritten with the
empty string (clearing any prior value) rather than left untouched, while
cells outside the clue keep their prior value. -/
theorem C1_unknown_marker_clears (room : Room) (clue answer : Str) (num : Int)
    (direction : Str) (coords : List (Nat × Nat))
    (hwf : RoomWF room)
    (hclue : parse_clue clue = some (num, direction))
    (hcells : get_answer_cells room.puzzle num direction = some coords)
    (hlen : (parse_answer answer).length = coords.length)
    (hups_a : ∀ kv ∈ room.puzzle.across_clues,
      (get_answer_cells room.puzzle (kv.1 : Int) "a".toList).isSome)
    (hups_d : ∀ kv ∈ room.puzzle.down_clues,
      (get_answer_cells room.puzzle (kv.1 : Int) "d".toList).isSome) :
    ∃ room', (apply_answer room clue answer).result = some room'
      ∧ (∀ (i : Nat) (xy : Nat × Nat) (t : Str), coords[i]? = some xy →
          (parse_answer answer)[i]? = some t →
          cellAt room'.cells xy.1 xy.2 = some t)
      ∧ (∀ x y, (x, y) ∉ coords → cellAt room'.cells x y = cellAt room.cells x y) := by
  obtain ⟨room', happly, hpuz, hcellseq, hstate, haf, hdf⟩ :=
    apply_answer_success room clue answer num direction coords hclue hcells hlen
      hups_a hups_d
  obtain ⟨hnodup, hshape⟩ := get_answer_cells_shape room.puzzle num direction coords hcells
  have hsnd : ((parse_answer answer).zip coords).map Prod.snd = coords :=
    zip_map_snd _ _ hlen
  have hw := writeValues_spec room.puzzle.rows room.puzzle.cols
    ((parse_answer answer).zip coords) room.cells hwf
    (by rw [hsnd]; exact hnodup)
    (by
      rw [hsnd]
      intro xy hxy
      exact ⟨(hshape xy hxy).1, (hshape xy hxy).2.1⟩)
  refine ⟨room', by rw [happly], ?_, ?_⟩
  · intro i xy t hxyi hti
    have hpair : ((parse_answer answer).zip coords)[i]? = some (t, xy) := by
      rw [zip_getElem?, hti, hxyi]
    have hmem : (t, xy) ∈ (parse_answer answer).zip coords :=
      List.getElem?_mem hpair
    rw [hcellseq]
    exact hw.1 (t, xy) hmem
  · intro x y hnot
    rw [hcellseq]
    exact hw.2.1 x y (by rw [hsnd]; exact hnot)

/-- Witness for the amended Claim C1: `AB.D` applied to `exampleRoom`,
where the unknown-marked third cell is indeed overwritten with the empty
string and a cell outside the clue is untouched. -/
theorem C1_unknown_marker_clears_witness :
    RoomWF exampleRoom
    ∧ parse_clue "1a".toList = some ((1 : Int), "a".toList)
    ∧ get_answer_cells exampleRoom.puzzle 1 "a".toList =
        some [(0, 0), (1, 0), (2, 0), (3, 0)]
    ∧ (parse_answer "AB.D".toList).length = 4
    ∧ (∃ room', (apply_answer exampleRoom "1a".toList "AB.D".toList).result = some room'
        ∧ (∀ (i : Nat) (xy : Nat × Nat) (t : Str),
            [(0, 0), (1, 0), (2, 0), (3, 0)][i]? = some xy →
            (parse_answer "AB.D".toList)[i]? = some t →
            cellAt room'.cells xy.1 xy.2 = some t)
        ∧ (∀ x y, (x, y) ∉ [((0 : Nat), (0 : Nat)), (1, 0), (2, 0), (3, 0)] →
            cellAt room'.cells x y = cellAt exampleRoom.cells x y)) := by
  refine ⟨⟨rfl, by decide⟩, rfl, rfl, rfl, ?_⟩
  exact C1_unknown_marker_clears exampleRoom "1a".toList "AB.D".toList 1 "a".toList
    [(0, 0), (1, 0), (2, 0), (3, 0)] ⟨rfl, by decide⟩ rfl rfl rfl
    (by decide) (by decide)

/-! ## Claim C3 -/

/-- Claim C3: when the parsed token count differs from the resolved cell
count, `apply_answer` fails (returns `None`), performs no cell write, and
persists nothing — the Room is unchanged in memory and in the store. -/
theorem C3_length_mismatch_unchanged (room : Room) (clue answer : Str) (num : Int)
    (direction : Str) (coords : List (Nat × Nat))
    (hclue : parse_clue clue = some (num, direction))
    (hcells : get_answer_cells room.puzzle num direction = some coords)
    (hlen : (parse_answer answer).length ≠ coords.length) :
    apply_answer room clue answer = ⟨none, false, [], none⟩ := by
  simp only [apply_answer, hclue, hcells]
  simp [hlen]

/-- Witness for Claim C3: a three-token answer against the four-cell clue
`1a` of `exampleRoom`. -/
theorem C3_length_mismatch_unchanged_witness :
    parse_clue "1a".toList = some ((1 : Int), "a".toList)
    ∧ get_answer_cells exampleRoom.puzzle 1 "a".toList =
        some [(0, 0), (1, 0), (2, 0), (3, 0)]
    ∧ (parse_answer "ABC".toList).length ≠ 4
    ∧ apply_answer exampleRoom "1a".toList "ABC".toList = ⟨none, false, [], none⟩ := by
  refine ⟨rfl, rfl, by decide, ?_⟩
  exact C3_length_mismatch_unchanged exampleRoom "1a".toList "ABC".toList 1 "a".toList
    [(0, 0), (1, 0), (2, 0), (3, 0)] rfl rfl (by decide)

/-! ## Claim C4 -/

/-- Claim C4: the parser scans left to right opening a rebus group at `(`
that accumulates characters verbatim until the matching `)` (dropped),
turns `.` outside a group into an empty token and any other character
outside a group into a single-character token (`parseAnswerSpec` is that
description, stated recursively), and in particular
`parseAnswer("(RED)VELVET") = ["RED","V","E","L","V","E","T"]`. -/
theorem C4_parser_spec :
    (∀ s : Str, parse_answer s = parseAnswerSpec s)
    ∧ parse_answer "(RED)VELVET".toList =
        ["RED".toList, ['V'], ['E'], ['L'], ['V'], ['E'], ['T']] := by
  exact ⟨parse_answer_eq_spec, rfl⟩

/-! ## Claim C8 -/

/-- Claim C8 as stated is false: when no Room exists the `join` handler
returns before emitting anything, so the joining client receives no
Settings snapshot either. -/
theorem C8_counterexample :
    join none { only_allow_correct_answers := false, hide_clues := "none".toList } = []
    ∧ Emitted.settingsMsg
        { only_allow_correct_answers := false, hide_clues := "none".toList } ∉
        join none { only_allow_correct_answers := false, hide_clues := "none".toList } := by
  exact ⟨rfl, by decide⟩

/-- Claim C8 (amended): when a Room exists the joining client receives, as
a directed reply, the sanitized Room snapshot (its puzzle's cell grid
replaced by the current cells, never the solution) followed by the current
Settings snapshot; when no Room exists the client receives nothing at all
(in particular no Settings snapshot). -/
theorem C8_join_reply (room : Room) (s : Settings) :
    join none s = []
    ∧ (∃ sanitized : Room,
        join (some room) s = [.state sanitized, .settingsMsg s]
        ∧ sanitized.puzzle.cells = room.cells
        ∧ sanitized.cells = room.cells
        ∧ sanitized.play_pause_state = room.play_pause_state
        ∧ sanitized.across_clues_filled = room.across_clues_filled
        ∧ sanitized.down_clues_filled = room.down_clues_filled
        ∧ sanitized.puzzle.rows = room.puzzle.rows
        ∧ sanitized.puzzle.cols = room.puzzle.cols
        ∧ sanitized.puzzle.across_clues = room.puzzle.across_clues
        ∧ sanitized.puzzle.down_clues = room.puzzle.down_clues) := by
  refine ⟨rfl, ⟨{ room with puzzle := { room.puzzle with cells := room.cells } },
    rfl, rfl, rfl, rfl, rfl, rfl, rfl, rfl, rfl, rfl⟩⟩

/-! ## Claim C9 -/

/-- The puzzle object that `Puzzle.from_json` rebuilds from
`examplePuzzle`'s serialized form: identical except that the clue-dict keys
are now strings. -/
def exampleLoadedPuzzle : PuzzleDyn :=
  { rows := 1, cols := 4, title := "T".toList, publisher := "P".toList,
    published := ⟨2020, 1, 2⟩, author := "A".toList,
    cells := [[some ['D'], some ['A'], some ['T'], some ['E']]],
    cell_clue_numbers := [[1, 0, 0, 0]],
    cell_circles := [[false, false, false, false]],
    across_clues := [(PyKey.str ['1'], "a clue".toList)],
    down_clues := [] }

/-- Claim C9 fails on the code: serializing `examplePuzzle` and
deserializing it back yields an object whose `across_clues` dict is keyed
by the string `"1"` instead of the integer `1` — `Puzzle.from_json`
converts only `published` back, so the round trip is not the identity.
(The date itself does round-trip; the integer keys do not.) -/
theorem C9_puzzle_roundtrip_fails :
    puzzle_from_jv (puzzle_to_jv examplePuzzle) = some exampleLoadedPuzzle
    ∧ exampleLoadedPuzzle ≠ puzzleToDyn examplePuzzle
    ∧ exampleLoadedPuzzle.across_clues = [(PyKey.str ['1'], "a clue".toList)]
    ∧ (puzzleToDyn examplePuzzle).across_clues = [(PyKey.int 1, "a clue".toList)]
    ∧ exampleLoadedPuzzle.published = examplePuzzle.published := by
  refine ⟨by decide, by decide, rfl, rfl, rfl⟩

/-! ## Claim C10 -/

/-- Claim C10: whenever the room exists and its `play_pause_state` is not
`playing`, the answer endpoint rejects the submission with HTTP 409 (for
any body within the size limit), and regardless of the body size it never
writes a cell and never persists a room — so a created, paused or complete
room cannot be mutated through this endpoint. -/
theorem C10_not_playing_409 (content_length : Nat) (room : Room) (s : Settings)
    (clue body : Str) (hstate : room.play_pause_state ≠ "playing".toList) :
    (content_length ≤ 1024 →
      answer_endpoint content_length (some room) s clue body = ⟨.e409, [], none⟩)
    ∧ (answer_endpoint content_length (some room) s clue body).writes = []
    ∧ (answer_endpoint content_length (some room) s clue body).persisted = none := by
  by_cases hcl : content_length > 1024
  · have h413 : answer_endpoint content_length (some room) s clue body =
        ⟨.e413, [], none⟩ := by
      simp [answer_endpoint, hcl]
    refine ⟨fun hle => absurd hcl (by omega), by rw [h413], by rw [h413]⟩
  · have h409 : answer_endpoint content_length (some room) s clue body =
        ⟨.e409, [], none⟩ := by
      simp only [answer_endpoint, if_neg hcl]
      rw [if_pos hstate]
    exact ⟨fun _ => h409, by rw [h409], by rw [h409]⟩

/-- A paused room over `examplePuzzle`. -/
def examplePausedRoom : Room :=
  { exampleRoom with play_pause_state := "paused".toList }

/-- Witness for Claim C10: a paused room's answer submission is rejected
with 409 and nothing is written or persisted. -/
theorem C10_not_playing_409_witness :
    examplePausedRoom.play_pause_state ≠ "playing".toList
    ∧ ((4 ≤ 1024 →
        answer_endpoint 4 (some examplePausedRoom) {} "1a".toList "DATE".toList =
          ⟨.e409, [], none⟩)
      ∧ (answer_endpoint 4 (some examplePausedRoom) {} "1a".toList "DATE".toList).writes = []
      ∧ (answer_endpoint 4 (some examplePausedRoom) {} "1a".toList
          "DATE".toList).persisted = none) := by
  exact ⟨by decide, C10_not_playing_409 4 examplePausedRoom {} "1a".toList
    "DATE".toList (by decide)⟩

/-! ## Claim C5 -/

/-- Claim C5: when no cell carries the clue number the resolver returns
`none` (`ClueNotFound`); otherwise (stated here for a uniquely numbered
start cell, which the double scan then selects) it returns the ordered
contiguous run from the numbered cell stepping `(+1,0)` for across and
`(0,+1)` otherwise, every returned cell lying inside the grid and fillable
(so the walk never wraps), stopping exactly at the first blocked cell or
grid edge, and non-empty whenever the start cell is fillable. -/
theorem C5_resolver (p : Puzzle) (num : Int) (direction : Str) :
    ((∀ x < p.cols, ∀ y < p.rows, (cellNumAt p x y : Int) ≠ num) →
      get_answer_cells p num direction = none)
    ∧ (∀ x₀ y₀ : Nat, x₀ < p.cols → y₀ < p.rows → (cellNumAt p x₀ y₀ : Int) = num →
        (∀ x < p.cols, ∀ y < p.rows, (cellNumAt p x y : Int) = num → (x, y) = (x₀, y₀)) →
        ∃ coords, get_answer_cells p num direction = some coords
          ∧ (solAt p x₀ y₀ ≠ none → coords ≠ [])
          ∧ (∀ i, i < coords.length →
              coords[i]? =
                some (if direction = "a".toList then (x₀ + i, y₀) else (x₀, y₀ + i)))
          ∧ (∀ c ∈ coords, c.1 < p.cols ∧ c.2 < p.rows ∧ solAt p c.1 c.2 ≠ none)
          ∧ (((if direction = "a".toList then x₀ + coords.length else x₀) ≥ p.cols
              ∨ (if direction = "a".toList then y₀ else y₀ + coords.length) ≥ p.rows)
            ∨ solAt p (if direction = "a".toList then x₀ + coords.length else x₀)
                (if direction = "a".toList then y₀ else y₀ + coords.length) = none)) := by
  constructor
  · intro h
    simp only [get_answer_cells, find_start_none p num h]
  · intro x₀ y₀ hx hy hnum huniq
    have hfs := find_start_unique p num x₀ y₀ hx hy hnum huniq
    by_cases hdir : direction = "a".toList
    · refine ⟨walk p true x₀ y₀, ?_, ?_, ?_, ?_, ?_⟩
      · simp [get_answer_cells, hfs, hdir]
      · intro hfill
        exact walk_length_pos p true x₀ y₀ hx hy hfill
      · intro i hi
        rw [walk_getElem? p true i x₀ y₀ hi]
        simp [hdir]
      · exact walk_mem p true (p.cols - x₀ + (p.rows - y₀)) x₀ y₀ le_rfl
      · have := walk_stop p true (walk p true x₀ y₀).length x₀ y₀ rfl
        simpa [hdir] using this
    · have hdir' : ¬direction = ['a'] := by simpa using hdir
      refine ⟨walk p false x₀ y₀, ?_, ?_, ?_, ?_, ?_⟩
      · simp [get_answer_cells, hfs, hdir']
      · intro hfill
        exact walk_length_pos p false x₀ y₀ hx hy hfill
      · intro i hi
        rw [walk_getElem? p false i x₀ y₀ hi]
        simp [hdir']
      · exact walk_mem p false (p.cols - x₀ + (p.rows - y₀)) x₀ y₀ le_rfl
      · have := walk_stop p false (walk p false x₀ y₀).length x₀ y₀ rfl
        simpa [hdir'] using this

/-- Witness for Claim C5: on `examplePuzzle`, clue 1 across resolves from
its unique start cell `(0,0)` to the full four-cell run, and the absent
clue number 9 fails to resolve. -/
theorem C5_resolver_witness :
    (∃ coords, get_answer_cells examplePuzzle 1 "a".toList = some coords
      ∧ (solAt examplePuzzle 0 0 ≠ none → coords ≠ [])
      ∧ (∀ i, i < coords.length →
          coords[i]? =
            some (if "a".toList = "a".toList then (0 + i, 0) else (0, 0 + i)))
      ∧ (∀ c ∈ coords,
          c.1 < examplePuzzle.cols ∧ c.2 < examplePuzzle.rows
          ∧ solAt examplePuzzle c.1 c.2 ≠ none)
      ∧ (((if "a".toList = "a".toList then 0 + coords.length else 0) ≥ examplePuzzle.cols
          ∨ (if "a".toList = "a".toList then 0 else 0 + coords.length) ≥ examplePuzzle.rows)
        ∨ solAt examplePuzzle
            (if "a".toList = "a".toList then 0 + coords.length else 0)
            (if "a".toList = "a".toList then 0 else 0 + coords.length) = none))
    ∧ get_answer_cells examplePuzzle 9 "a".toList = none := by
  constructor
  · exact (C5_resolver examplePuzzle 1 "a".toList).2 0 0 (by decide) (by decide)
      (by decide) (by decide)
  · exact (C5_resolver examplePuzzle 9 "a".toList).1 (by decide)

/-- Inversion: what a successful `apply_answer` call tells us. -/
theorem apply_answer_result_some (room : Room) (clue answer : Str) (room' : Room)
    (h : (apply_answer room clue answer).result = some room') :
    ∃ num direction coords,
      parse_clue clue = some (num, direction)
      ∧ get_answer_cells room.puzzle num direction = some coords
      ∧ (parse_answer answer).length = coords.length
      ∧ room'.puzzle = room.puzzle
      ∧ room'.cells = writeValues room.cells ((parse_answer answer).zip coords)
      ∧ room'.play_pause_state =
          (if room'.cells = room.puzzle.cells then "complete".toList
           else room.play_pause_state)
      ∧ updateFilled room.puzzle room'.cells room.puzzle.across_clues "a".toList
          room.across_clues_filled = some room'.across_clues_filled
      ∧ updateFilled room.puzzle room'.cells room.puzzle.down_clues "d".toList
          room.down_clues_filled = some room'.down_clues_filled := by
  cases hclue : parse_clue clue with
  | none =>
      have heq : (apply_answer room clue answer).result = none := by
        simp [apply_answer, hclue]
      rw [heq] at h
      simp at h
  | some nd =>
      obtain ⟨num, direction⟩ := nd
      cases hcells : get_answer_cells room.puzzle num direction with
      | none =>
          have heq : (apply_answer room clue answer).result = none := by
            simp [apply_answer, hclue, hcells]
          rw [heq] at h
          simp at h
      | some coords =>
          by_cases hlen : (parse_answer answer).length ≠ coords.length
          · have heq : (apply_answer room clue answer).result = none := by
              simp [apply_answer, hclue, hcells, hlen]
            rw [heq] at h
            simp at h
          · push_neg at hlen
            have hlen' : ¬(parse_answer answer).length ≠ coords.length := by omega
            have hafSome : (updateFilled room.puzzle
                (writeValues room.cells ((parse_answer answer).zip coords))
                room.puzzle.across_clues "a".toList room.across_clues_filled).isSome := by
              by_contra hno
              rw [Option.not_isSome_iff_eq_none] at hno
              have hno2 : updateFilled room.puzzle
                  (writeValues room.cells ((parse_answer answer).zip coords))
                  room.puzzle.across_clues ['a'] room.across_clues_filled = none := hno
              have heq : (apply_answer room clue answer).result = none := by
                simp [apply_answer, hclue, hcells, if_neg hlen', hno2]
              rw [heq] at h
              simp at h
            obtain ⟨af, haf⟩ := Option.isSome_iff_exists.mp hafSome
            have hdfSome : (updateFilled room.puzzle
                (writeValues room.cells ((parse_answer answer).zip coords))
                room.puzzle.down_clues "d".toList room.down_clues_filled).isSome := by
              by_contra hno
              rw [Option.not_isSome_iff_eq_none] at hno
              have haf2 : updateFilled room.puzzle
                  (writeValues room.cells ((parse_answer answer).zip coords))
                  room.puzzle.across_clues ['a'] room.across_clues_filled = some af := haf
              have hno2 : updateFilled room.puzzle
                  (writeValues room.cells ((parse_answer answer).zip coords))
                  room.puzzle.down_clues ['d'] room.down_clues_filled = none := hno
              have heq : (apply_answer room clue answer).result = none := by
                simp [apply_answer, hclue, hcells, if_neg hlen', haf2, hno2]
              rw [heq] at h
              simp at h
            obtain ⟨room'', heq, hpuz, hcellseq, hstateq, haf', hdf'⟩ :=
              apply_answer_success room clue answer num direction coords hclue hcells
                hlen ((updateFilled_isSome_iff _ _ _ _ _).mp hafSome)
                ((updateFilled_isSome_iff _ _ _ _ _).mp hdfSome)
            rw [heq] at h
            simp only [Option.some.injEq] at h
            subst h
            exact ⟨num, direction, coords, rfl, hcells, hlen, hpuz, hcellseq,
              hstateq, haf', hdf'⟩

/-! ## Claim C6 -/

/-- Claim C6: after a successful answer application to a room that was not
already `complete` (the endpoint only applies answers to `playing` rooms),
the resulting lifecycle state is `complete` exactly when the resulting cell
grid equals the puzzle's solution grid; and the transition is idempotent —
reapplying the same answer to the completed room succeeds with the state
still `complete` and the grid still equal to the solution. -/
theorem C6_complete_iff_solved (room : Room) (clue answer : Str) (room' : Room)
    (hwf : RoomWF room)
    (hstate : room.play_pause_state ≠ "complete".toList)
    (happly : (apply_answer room clue answer).result = some room') :
    (room'.play_pause_state = "complete".toList ↔ room'.cells = room.puzzle.cells)
    ∧ (room'.cells = room.puzzle.cells →
        ∀ room'', (apply_answer room' clue answer).result = some room'' →
          room''.play_pause_state = "complete".toList
          ∧ room''.cells = room.puzzle.cells) := by
  obtain ⟨num, direction, coords, hclue, hcells, hlen, hpuz, hcellseq, hstateq,
    haf, hdf⟩ := apply_answer_result_some room clue answer room' happly
  constructor
  · constructor
    · intro hc
      by_contra hne
      rw [if_neg hne] at hstateq
      exact hstate (hstateq ▸ hc)
    · intro hc
      rw [hstateq, if_pos hc]
  · intro hsolved room'' happly'
    obtain ⟨num2, direction2, coords2, hclue2, hcells2, hlen2, hpuz2, hcellseq2,
      hstateq2, _, _⟩ := apply_answer_result_some room' clue answer room'' happly'
    rw [hclue] at hclue2
    have hpair := Option.some.inj hclue2
    have hn2 : num = num2 := congrArg Prod.fst hpair
    have hd2 : direction = direction2 := congrArg Prod.snd hpair
    subst hn2
    subst hd2
    have hcoords2 : coords2 = coords := by
      rw [hpuz, hcells] at hcells2
      exact (Option.some.inj hcells2).symm
    rw [hcoords2] at hcellseq2
    obtain ⟨hnodup, hshape⟩ :=
      get_answer_cells_shape room.puzzle num direction coords hcells
    have hsnd : ((parse_answer answer).zip coords).map Prod.snd = coords :=
      zip_map_snd _ _ hlen
    have hw := writeValues_spec room.puzzle.rows room.puzzle.cols
      ((parse_answer answer).zip coords) room.cells hwf
      (by rw [hsnd]; exact hnodup)
      (by
        rw [hsnd]
        intro xy hxy
        exact ⟨(hshape xy hxy).1, (hshape xy hxy).2.1⟩)
    have hnoop : writeValues room'.cells ((parse_answer answer).zip coords) =
        room'.cells := by
      apply writeValues_noop
      intro vxy hmem
      rw [hcellseq]
      exact hw.1 vxy hmem
    have hcells'' : room''.cells = room.puzzle.cells := by
      rw [hcellseq2, hnoop, hsolved]
    refine ⟨?_, hcells''⟩
    rw [hstateq2, hpuz, if_pos hcells'']

/-- Witness for Claim C6: answering `DATE` on `exampleRoom` completes the
room, the grid equals the solution, and reapplying `DATE` keeps it so. -/
theorem C6_complete_iff_solved_witness :
    RoomWF exampleRoom
    ∧ exampleRoom.play_pause_state ≠ "complete".toList
    ∧ (∃ room', (apply_answer exampleRoom "1a".toList "DATE".toList).result = some room'
        ∧ ((room'.play_pause_state = "complete".toList ↔
              room'.cells = exampleRoom.puzzle.cells)
          ∧ (room'.cells = exampleRoom.puzzle.cells →
              ∀ room'', (apply_answer room' "1a".toList "DATE".toList).result = some room'' →
                room''.play_pause_state = "complete".toList
                ∧ room''.cells = exampleRoom.puzzle.cells))) := by
  refine ⟨⟨rfl, by decide⟩, by decide, ?_⟩
  cases hres : (apply_answer exampleRoom "1a".toList "DATE".toList).result with
  | none => exact absurd hres (by decide)
  | some room' =>
      exact ⟨room', rfl, C6_complete_iff_solved exampleRoom "1a".toList "DATE".toList
        room' ⟨rfl, by decide⟩ (by decide) hres⟩

/-! ## Serialized-answer lemmas -/

/-- The encoding of one solution token inside `serializeAnswer`. -/
def encTok (v : Str) : Str := if v.length = 1 then v else '(' :: (v ++ [')'])

theorem serializeAnswer_eq_join (vals : List Str) :
    serializeAnswer vals = (vals.map encTok).flatten := by
  suffices h : ∀ (vs : List Str) (acc : Str),
      vs.foldl (fun acc v => acc ++ (if v.length = 1 then v else '(' :: (v ++ [')'])))
        acc = acc ++ (vs.map encTok).flatten by
    simpa using h vals []
  intro vs
  induction vs with
  | nil => intro acc; simp
  | cons v rest ih =>
      intro acc
      simp only [List.foldl_cons, List.map_cons, List.flatten_cons, ih, encTok]
      rw [List.append_assoc]

theorem grabGroup_no_close (v : Str) (t : Str) (h : ')' ∉ v) :
    grabGroup (v ++ ')' :: t) = (v, t) := by
  induction v with
  | nil => simp [grabGroup]
  | cons c rest ih =>
      have hc : c ≠ ')' := fun hc => h (hc ▸ List.mem_cons_self c rest)
      have hrest : ')' ∉ rest := fun hr => h (List.mem_cons_of_mem c hr)
      simp only [List.cons_append, grabGroup, if_neg hc, List.append_eq, ih hrest]

theorem parseAnswerSpec_cons (c : Char) (rest : Str) :
    parseAnswerSpec (c :: rest) =
      if c = '(' then (grabGroup rest).1 :: parseAnswerSpec (grabGroup rest).2
      else if c = '.' then [] :: parseAnswerSpec rest
      else [c] :: parseAnswerSpec rest := by
  rw [parseAnswerSpec]

theorem parse_serializeAnswer (vals : List Str)
    (hplain : ∀ v ∈ vals, v ≠ [] ∧ '(' ∉ v ∧ ')' ∉ v ∧ '.' ∉ v) :
    parse_answer (serializeAnswer vals) = vals := by
  rw [parse_answer_eq_spec, serializeAnswer_eq_join]
  induction vals with
  | nil => simp [parseAnswerSpec]
  | cons v rest ih =>
      obtain ⟨hne, hop, hcl, hdot⟩ := hplain v (List.mem_cons_self v rest)
      have hrest : ∀ v ∈ rest, v ≠ [] ∧ '(' ∉ v ∧ ')' ∉ v ∧ '.' ∉ v :=
        fun v hv => hplain v (List.mem_cons_of_mem _ hv)
      simp only [List.map_cons, List.flatten_cons]
      by_cases h1 : v.length = 1
      · obtain ⟨c, hc⟩ : ∃ c, v = [c] := by
          cases v with
          | nil => simp at h1
          | cons c cs =>
              cases cs with
              | nil => exact ⟨c, rfl⟩
              | cons d ds => simp at h1
        subst hc
        have hcp : c ≠ '(' := fun h => hop (h ▸ List.mem_cons_self c [])
        have hcd : c ≠ '.' := fun h => hdot (h ▸ List.mem_cons_self c [])
        simp only [encTok, if_pos h1, List.cons_append, List.nil_append]
        rw [parseAnswerSpec_cons, if_neg hcp, if_neg hcd, ih hrest]
      · simp only [encTok, if_neg h1, List.cons_append]
        rw [parseAnswerSpec_cons, if_pos rfl]
        have hr : (v ++ [')']) ++ (List.map encTok rest).flatten =
            v ++ ')' :: (List.map encTok rest).flatten := by
          rw [List.append_assoc]
          rfl
        rw [hr, grabGroup_no_close v _ hcl]
        rw [ih hrest]

theorem encTok_ne_nil (v : Str) (h : v ≠ []) : encTok v ≠ [] := by
  unfold encTok
  by_cases h1 : v.length = 1
  · simpa [h1] using h
  · simp [h1]

theorem serializeAnswer_ne_nil (vals : List Str) (hne : vals ≠ [])
    (hv : ∀ v ∈ vals, v ≠ []) : serializeAnswer vals ≠ [] := by
  rw [serializeAnswer_eq_join]
  cases vals with
  | nil => exact absurd rfl hne
  | cons v rest =>
      simp only [List.map_cons, List.flatten_cons]
      intro hc
      rcases List.append_eq_nil.mp hc with ⟨h1, _⟩
      exact encTok_ne_nil v (hv v (List.mem_cons_self v rest)) h1

theorem zip_self_check_false (l : Str) :
    (l.zip l).any (fun ac => decide (ac.1 ≠ '.' ∧ ac.1 ≠ ac.2)) = false := by
  induction l with
  | nil => rfl
  | cons c rest ih =>
      simp only [List.zip_cons_cons, List.any_cons, ih, Bool.or_false]
      simp

theorem get_correct_answer_eq (room : Room) (clue : Str) (num : Int)
    (direction : Str) (coords : List (Nat × Nat)) (vals : List Str)
    (hclue : parse_clue clue = some (num, direction))
    (hcells : get_answer_cells room.puzzle num direction = some coords)
    (hvals : listMapM (fun xy => solAt room.puzzle xy.1 xy.2) coords = some vals) :
    get_correct_answer (some room) clue = .ret (some (serializeAnswer vals)) := by
  simp [get_correct_answer, hclue, hcells, hvals]

/-! ## Claim C2 -/

/-- Claim C2: with `onlyAllowCorrectAnswers` enabled on a playing room,
a submission whose normalized body equals the authoritative answer string
(rebus tokens included whole, in their parenthesized form) passes the
validation, is applied, writes exactly the solution tokens, and marks the
clue filled in the corresponding filled-map; a submission of the same
length with a wrong non-`.` character at any position is rejected with
HTTP 403, no cell write and no persist — `.` positions are acceptable
(the comparison only tests positions where the submitted character is not
the unknown marker). -/
theorem C2_strict_mode (room : Room) (s : Settings) (clue : Str) (n : Nat)
    (direction : Str) (coords : List (Nat × Nat)) (vals : List Str)
    (content_length : Nat)
    (hwf : RoomWF room)
    (hcl : content_length ≤ 1024)
    (hstate : room.play_pause_state = "playing".toList)
    (hstrict : s.only_allow_correct_answers = true)
    (hclue : parse_clue clue = some ((n : Int), direction))
    (hcells : get_answer_cells room.puzzle (n : Int) direction = some coords)
    (hvals : listMapM (fun xy => solAt room.puzzle xy.1 xy.2) coords = some vals)
    (hvals_ne : vals ≠ [])
    (hplain : ∀ v ∈ vals, v ≠ [] ∧ '(' ∉ v ∧ ')' ∉ v ∧ '.' ∉ v)
    (hups_a : ∀ kv ∈ room.puzzle.across_clues,
      (get_answer_cells room.puzzle (kv.1 : Int) "a".toList).isSome)
    (hups_d : ∀ kv ∈ room.puzzle.down_clues,
      (get_answer_cells room.puzzle (kv.1 : Int) "d".toList).isSome)
    (hnodup_a : (room.puzzle.across_clues.map Prod.fst).Nodup)
    (hnodup_d : (room.puzzle.down_clues.map Prod.fst).Nodup) :
    (∀ body : Str, upperStr (strip (removeSpaces body)) = serializeAnswer vals →
      ∃ room', answer_endpoint content_length (some room) s clue body =
          ⟨.ok204, vals.zip coords, some room'⟩
        ∧ (∀ (i : Nat) (xy : Nat × Nat) (v : Str),
            coords[i]? = some xy → vals[i]? = some v →
            cellAt room'.cells xy.1 xy.2 = some v)
        ∧ (direction = "a".toList → ∀ t, (n, t) ∈ room.puzzle.across_clues →
            dictGet room'.across_clues_filled n = some true)
        ∧ (direction = "d".toList → ∀ t, (n, t) ∈ room.puzzle.down_clues →
            dictGet room'.down_clues_filled n = some true))
    ∧ (∀ body : Str,
        (upperStr (strip (removeSpaces body))).length = (serializeAnswer vals).length →
        (∃ ac ∈ (upperStr (strip (removeSpaces body))).zip (serializeAnswer vals),
          ac.1 ≠ '.' ∧ ac.1 ≠ ac.2) →
        answer_endpoint content_length (some room) s clue body = ⟨.e403, [], none⟩) := by
  have hlenv : vals.length = coords.length := listMapM_some_length _ coords vals hvals
  have hparse : parse_answer (serializeAnswer vals) = vals :=
    parse_serializeAnswer vals hplain
  have hcne : serializeAnswer vals ≠ [] :=
    serializeAnswer_ne_nil vals hvals_ne (fun v hv => (hplain v hv).1)
  have hgca : get_correct_answer (some room) clue =
      .ret (some (serializeAnswer vals)) :=
    get_correct_answer_eq room clue (n : Int) direction coords vals hclue hcells hvals
  have hstate' : ¬room.play_pause_state ≠ "playing".toList := fun hne => hne hstate
  have hclb : ¬content_length > 1024 := by omega
  obtain ⟨hnodupc, hshape⟩ :=
    get_answer_cells_shape room.puzzle (n : Int) direction coords hcells
  constructor
  · intro body hbody
    obtain ⟨room', happly, hpuz, hcellseq, hstateq, haf, hdf⟩ :=
      apply_answer_success room clue (serializeAnswer vals) (n : Int) direction coords
        hclue hcells (by rw [hparse]; exact hlenv) hups_a hups_d
    have hpairs : (parse_answer (serializeAnswer vals)).zip coords = vals.zip coords := by
      rw [hparse]
    have hsnd : (vals.zip coords).map Prod.snd = coords := zip_map_snd _ _ hlenv
    have hw := writeValues_spec room.puzzle.rows room.puzzle.cols
      (vals.zip coords) room.cells hwf
      (by rw [hsnd]; exact hnodupc)
      (by
        rw [hsnd]
        intro xy hxy
        exact ⟨(hshape xy hxy).1, (hshape xy hxy).2.1⟩)
    have hcells' : room'.cells = writeValues room.cells (vals.zip coords) := by
      rw [hcellseq, hpairs]
    have hwrite : ∀ (i : Nat) (xy : Nat × Nat) (v : Str),
        coords[i]? = some xy → vals[i]? = some v →
        cellAt room'.cells xy.1 xy.2 = some v := by
      intro i xy v hxyi hvi
      have hpair : (vals.zip coords)[i]? = some (v, xy) := by
        rw [zip_getElem?, hvi, hxyi]
      rw [hcells']
      exact hw.1 (v, xy) (List.getElem?_mem hpair)
    have hallfilled : ∀ xy ∈ coords,
        decide (cellAt room'.cells xy.1 xy.2 ≠ some []) = true := by
      intro xy hxy
      obtain ⟨i, hxyi⟩ := List.getElem?_of_mem hxy
      have hvi : vals[i]? = solAt room.puzzle xy.1 xy.2 :=
        listMapM_some_getElem? _ coords vals hvals i xy hxyi
      cases hsol : solAt room.puzzle xy.1 xy.2 with
      | none => exact absurd hsol (hshape xy hxy).2.2
      | some v =>
          rw [hsol] at hvi
          have hvm : v ∈ vals := List.getElem?_mem hvi
          have hv : cellAt room'.cells xy.1 xy.2 = some v := hwrite i xy v hxyi hvi
          rw [hv]
          simp only [ne_eq, Option.some.injEq, decide_not]
          simp [(hplain v hvm).1]
    have hend : answer_endpoint content_length (some room) s clue body =
        ⟨.ok204, vals.zip coords, some room'⟩ := by
      simp only [answer_endpoint, if_neg hclb]
      rw [if_neg hstate']
      simp only [hbody]
      rw [if_neg (fun hc => hcne (List.length_eq_zero.mp hc))]
      simp only [hstrict, if_true, hgca]
      rw [if_neg (by omega : ¬(serializeAnswer vals).length ≠ (serializeAnswer vals).length)]
      rw [if_neg (by rw [zip_self_check_false]; simp)]
      simp only [answer_apply_stage, happly]
      rw [hpairs]
    refine ⟨room', hend, hwrite, ?_, ?_⟩
    · intro hdir t hmem
      have hcells_a : get_answer_cells room.puzzle (n : Int) "a".toList = some coords :=
        hdir ▸ hcells
      have hfe : filledEntry room.puzzle room'.cells n "a".toList = some true := by
        simp only [filledEntry, hcells_a, Option.map_some']
        congr 1
        exact List.all_eq_true.mpr hallfilled
      exact updateFilled_dictGet room.puzzle room'.cells "a".toList
        room.puzzle.across_clues room.across_clues_filled room'.across_clues_filled
        hnodup_a haf n t hmem true hfe
    · intro hdir t hmem
      have hcells_d : get_answer_cells room.puzzle (n : Int) "d".toList = some coords :=
        hdir ▸ hcells
      have hfe : filledEntry room.puzzle room'.cells n "d".toList = some true := by
        simp only [filledEntry, hcells_d, Option.map_some']
        congr 1
        exact List.all_eq_true.mpr hallfilled
      exact updateFilled_dictGet room.puzzle room'.cells "d".toList
        room.puzzle.down_clues room.down_clues_filled room'.down_clues_filled
        hnodup_d hdf n t hmem true hfe
  · intro body hlen2 hwrong
    have hbne : ¬(upperStr (strip (removeSpaces body))).length = 0 := by
      intro hc
      rw [hc] at hlen2
      exact hcne (List.length_eq_zero.mp hlen2.symm)
    simp only [answer_endpoint, if_neg hclb]
    rw [if_neg hstate']
    rw [if_neg hbne]
    simp only [hstrict, if_true, hgca]
    rw [if_neg (by omega :
      ¬(upperStr (strip (removeSpaces body))).length ≠ (serializeAnswer vals).length)]
    rw [if_pos ?hany]
    case hany =>
      obtain ⟨ac, hmem, hac1, hac2⟩ := hwrong
      exact List.any_eq_true.mpr ⟨ac, hmem, by simp [hac1, hac2]⟩

/-- Witness for Claim C2: on `exampleRoom` with strict settings, submitting
`DATE` for clue `1a` succeeds (HTTP 204), writes the solution and marks the
clue filled; submitting `DOTE` (one wrong letter) is rejected with HTTP 403
and nothing is written or persisted. -/
theorem C2_strict_mode_witness :
    (∃ room', answer_endpoint 4 (some exampleRoom)
        { only_allow_correct_answers := true, hide_clues := "none".toList }
        "1a".toList "DATE".toList =
        ⟨.ok204, ([['D'], ['A'], ['T'], ['E']].zip
          [((0 : Nat), (0 : Nat)), (1, 0), (2, 0), (3, 0)]), some room'⟩
      ∧ (∀ (i : Nat) (xy : Nat × Nat) (v : Str),
          [((0 : Nat), (0 : Nat)), (1, 0), (2, 0), (3, 0)][i]? = some xy →
          [['D'], ['A'], ['T'], ['E']][i]? = some v →
          cellAt room'.cells xy.1 xy.2 = some v)
      ∧ ("a".toList = "a".toList → ∀ t, ((1 : Nat), t) ∈ exampleRoom.puzzle.across_clues →
          dictGet room'.across_clues_filled 1 = some true)
      ∧ ("a".toList = "d".toList → ∀ t, ((1 : Nat), t) ∈ exampleRoom.puzzle.down_clues →
          dictGet room'.down_clues_filled 1 = some true))
    ∧ answer_endpoint 4 (some exampleRoom)
        { only_allow_correct_answers := true, hide_clues := "none".toList }
        "1a".toList "DOTE".toList = ⟨.e403, [], none⟩ := by
  have h := C2_strict_mode exampleRoom
    { only_allow_correct_answers := true, hide_clues := "none".toList }
    "1a".toList 1 "a".toList [(0, 0), (1, 0), (2, 0), (3, 0)]
    [['D'], ['A'], ['T'], ['E']] 4
    ⟨rfl, by decide⟩ (by decide) rfl rfl (by decide) (by decide) (by decide)
    (by decide) (by decide) (by decide) (by decide) (by decide) (by decide)
  exact ⟨h.1 "DATE".toList (by decide), h.2 "DOTE".toList (by decide) (by decide)⟩


/-! ## Claim C7 -/

theorem rangeGrid_cellAt (rows cols : Nat) (f : Nat → Nat → Option Str) (x y : Nat)
    (hx : x < cols) (hy : y < rows) :
    cellAt ((List.range rows).map
      (fun y => (List.range cols).map (fun x => f x y))) x y = f x y := by
  simp [cellAt, List.getElem?_map, List.getElem?_range, hx, hy]

theorem clearedGrid_cellAt (room : Room) (x y : Nat)
    (hx : x < room.puzzle.cols) (hy : y < room.puzzle.rows) :
    cellAt (clearedGrid room) x y =
      match solAt room.puzzle x y with
      | none => cellAt room.cells x y
      | some sol =>
          match cellAt room.cells x y with
          | none => none
          | some v => if v = sol then some v else some [] := by
  unfold clearedGrid
  exact rangeGrid_cellAt room.puzzle.rows room.puzzle.cols _ x y hx hy

/-- Claim C7 (settled against the spec-modelled `clear_incorrect_cells`):
when a settings update makes the merged settings enable
`onlyAllowCorrectAnswers`, the handler persists a room in which every
fillable cell agreeing with the solution is kept, every fillable cell
disagreeing with the solution is cleared to the empty string, blocked
positions are untouched, each clue's filled-map entry is recomputed from
the cleared grid, and the completion state is recomputed from the cleared
grid. -/
theorem C7_enable_strict_clears (room : Room) (existing : Settings)
    (changes : SettingsChanges)
    (henable : (merge_settings existing changes).only_allow_correct_answers = true)
    (hups_a : ∀ kv ∈ room.puzzle.across_clues,
      (get_answer_cells room.puzzle (kv.1 : Int) "a".toList).isSome)
    (hups_d : ∀ kv ∈ room.puzzle.down_clues,
      (get_answer_cells room.puzzle (kv.1 : Int) "d".toList).isSome)
    (hnodup_a : (room.puzzle.across_clues.map Prod.fst).Nodup)
    (hnodup_d : (room.puzzle.down_clues.map Prod.fst).Nodup) :
    ∃ room', set_settings_event (some room) existing changes =
        ⟨merge_settings existing changes, some room', false⟩
      ∧ room'.puzzle = room.puzzle
      ∧ room'.cells = clearedGrid room
      ∧ (∀ x y, x < room.puzzle.cols → y < room.puzzle.rows →
          (∀ sol v, solAt room.puzzle x y = some sol →
            cellAt room.cells x y = some v →
            cellAt room'.cells x y = (if v = sol then some v else some []))
          ∧ (solAt room.puzzle x y = none →
            cellAt room'.cells x y = cellAt room.cells x y))
      ∧ (∀ n t, (n, t) ∈ room.puzzle.across_clues →
          ∀ coords, get_answer_cells room.puzzle (n : Int) "a".toList = some coords →
          dictGet room'.across_clues_filled n =
            some (coords.all (fun xy => decide (cellAt room'.cells xy.1 xy.2 ≠ some []))))
      ∧ (∀ n t, (n, t) ∈ room.puzzle.down_clues →
          ∀ coords, get_answer_cells room.puzzle (n : Int) "d".toList = some coords →
          dictGet room'.down_clues_filled n =
            some (coords.all (fun xy => decide (cellAt room'.cells xy.1 xy.2 ≠ some []))))
      ∧ (room'.cells = room.puzzle.cells → room'.play_pause_state = "complete".toList)
      ∧ (room'.cells ≠ room.puzzle.cells →
          room'.play_pause_state = room.play_pause_state) := by
  have hafSome : (updateFilled room.puzzle (clearedGrid room)
      room.puzzle.across_clues "a".toList room.across_clues_filled).isSome := by
    rw [updateFilled_isSome_iff]
    exact hups_a
  obtain ⟨af, haf⟩ := Option.isSome_iff_exists.mp hafSome
  have hdfSome : (updateFilled room.puzzle (clearedGrid room)
      room.puzzle.down_clues "d".toList room.down_clues_filled).isSome := by
    rw [updateFilled_isSome_iff]
    exact hups_d
  obtain ⟨df, hdf⟩ := Option.isSome_iff_exists.mp hdfSome
  have hclear : clear_incorrect_cells room = some
      ⟨(if clearedGrid room = room.puzzle.cells then "complete".toList
        else room.play_pause_state),
       room.puzzle, clearedGrid room, af, df⟩ := by
    simp only [clear_incorrect_cells, haf, hdf]
  refine ⟨⟨(if clearedGrid room = room.puzzle.cells then "complete".toList
      else room.play_pause_state), room.puzzle, clearedGrid room, af, df⟩,
    ?_, rfl, rfl, ?_, ?_, ?_, ?_, ?_⟩
  · simp only [set_settings_event, henable, if_true, hclear]
  · intro x y hx hy
    constructor
    · intro sol v hsol hv
      rw [clearedGrid_cellAt room x y hx hy]
      simp only [hsol, hv]
    · intro hsol
      rw [clearedGrid_cellAt room x y hx hy]
      simp only [hsol]
  · intro n t hmem coords hcoords
    refine updateFilled_dictGet room.puzzle (clearedGrid room) "a".toList
      room.puzzle.across_clues room.across_clues_filled af hnodup_a haf n t hmem _ ?_
    simp only [filledEntry, hcoords, Option.map_some']
  · intro n t hmem coords hcoords
    refine updateFilled_dictGet room.puzzle (clearedGrid room) "d".toList
      room.puzzle.down_clues room.down_clues_filled df hnodup_d hdf n t hmem _ ?_
    simp only [filledEntry, hcoords, Option.map_some']
  · intro hc
    simp only at hc ⊢
    rw [if_pos hc]
  · intro hc
    simp only at hc ⊢
    rw [if_neg hc]

/-- Witness for Claim C7: enabling `only_allow_correct_answers` on
`exampleRoom` (which holds the incorrect values `Z` and `X`) persists a
room with exactly the disagreeing cells cleared and the filled-maps and
completion recomputed from the cleared grid. -/
theorem C7_enable_strict_clears_witness :
    (merge_settings { only_allow_correct_answers := false, hide_clues := "none".toList }
      ⟨some true, none⟩).only_allow_correct_answers = true
    ∧ (∃ room', set_settings_event (some exampleRoom)
          { only_allow_correct_answers := false, hide_clues := "none".toList }
          ⟨some true, none⟩ =
          ⟨merge_settings
            { only_allow_correct_answers := false, hide_clues := "none".toList }
            ⟨some true, none⟩, some room', false⟩
        ∧ room'.puzzle = exampleRoom.puzzle
        ∧ room'.cells = clearedGrid exampleRoom
        ∧ (∀ x y, x < exampleRoom.puzzle.cols → y < exampleRoom.puzzle.rows →
            (∀ sol v, solAt exampleRoom.puzzle x y = some sol →
              cellAt exampleRoom.cells x y = some v →
              cellAt room'.cells x y = (if v = sol then some v else some []))
            ∧ (solAt exampleRoom.puzzle x y = none →
              cellAt room'.cells x y = cellAt exampleRoom.cells x y))
        ∧ (∀ n t, (n, t) ∈ exampleRoom.puzzle.across_clues →
            ∀ coords,
              get_answer_cells exampleRoom.puzzle (n : Int) "a".toList = some coords →
            dictGet room'.across_clues_filled n =
              some (coords.all
                (fun xy => decide (cellAt room'.cells xy.1 xy.2 ≠ some []))))
        ∧ (∀ n t, (n, t) ∈ exampleRoom.puzzle.down_clues →
            ∀ coords,
              get_answer_cells exampleRoom.puzzle (n : Int) "d".toList = some coords →
            dictGet room'.down_clues_filled n =
              some (coords.all
                (fun xy => decide (cellAt room'.cells xy.1 xy.2 ≠ some []))))
        ∧ (room'.cells = exampleRoom.puzzle.cells →
            room'.play_pause_state = "complete".toList)
        ∧ (room'.cells ≠ exampleRoom.puzzle.cells →
            room'.play_pause_state = exampleRoom.play_pause_state)) := by
  exact ⟨by decide, C7_enable_strict_clears exampleRoom
    { only_allow_correct_answers := false, hide_clues := "none".toList }
    ⟨some true, none⟩ (by decide) (by decide) (by decide) (by decide) (by decide)⟩
